import Mathlib

/-!
# mondrian-go: the rectangle partitioning of `main.go`

A shallow embedding of `getRectangles`, `splitRectangle`, `findIntersections` and
the painting loop of `mondrian` from `src/main.go`, together with the parts of
Go's `image` and `image/draw` packages they call (`Rect`, `Empty`, `Intersect`,
`Overlaps`, `In`, `Inset`, `Point.In`, `draw.Draw`), followed by the properties
proved about them.

Conventions of the embedding:
* Go `int` values are `Int`. The sums and differences that `splitRectangle`
  computes wrap at 64 bits (`wrap`), as Go's do; `Max.X/2` and `15 + Intn(30)`
  cannot leave the range. The functions of the `image` packages are embedded
  with exact integer arithmetic.
* The process-wide random source is an explicit stream of raw natural numbers
  with a cursor. `rand.Intn n` reads the next raw number modulo `n`, and panics
  (`none`) when `n ≤ 0`, as in Go. Every in-range sequence of draws is the image
  of some stream, so quantifying over streams quantifies over all draws.
* A Go panic (non-positive `Intn` bound, index out of range) is `none`.
* Go maps used as sets (`seen`, `seenIntersections`) are lists of keys.
-/

namespace Mondrian

/-! ## Geometry: Go's `image.Point` and `image.Rectangle` -/

/-- Go `image.Point`: an X, Y coordinate pair. -/
structure Point where
  X : Int
  Y : Int
deriving DecidableEq, Repr

/-- Go `image.Rectangle`: `Min` is inclusive, `Max` is exclusive. Equality `==` of Go
is field-wise equality, which is the derived decidable equality. -/
structure Rectangle where
  Min : Point
  Max : Point
deriving DecidableEq, Repr

/-- Go `image.ZR`, the zero rectangle, also the zero value of the type. -/
def ZR : Rectangle := ⟨⟨0, 0⟩, ⟨0, 0⟩⟩

/-- Go `image.Rect`: the rectangle with the given corners, swapping the
coordinates of an axis when they come in the wrong order. -/
def Rect (x0 y0 x1 y1 : Int) : Rectangle :=
  let xs : Int × Int := if x0 > x1 then (x1, x0) else (x0, x1)
  let ys : Int × Int := if y0 > y1 then (y1, y0) else (y0, y1)
  ⟨⟨xs.1, ys.1⟩, ⟨xs.2, ys.2⟩⟩

/-- Go `Rectangle.Dx`: the width. -/
def Rectangle.Dx (r : Rectangle) : Int := r.Max.X - r.Min.X

/-- Go `Rectangle.Dy`: the height. -/
def Rectangle.Dy (r : Rectangle) : Int := r.Max.Y - r.Min.Y

/-- Go `Rectangle.Empty`: whether the rectangle contains no points. -/
def Rectangle.Empty (r : Rectangle) : Bool :=
  decide (r.Min.X ≥ r.Max.X) || decide (r.Min.Y ≥ r.Max.Y)

/-- Go `Rectangle.Intersect`: the largest rectangle contained in both, or `ZR`
when the two do not overlap. -/
def Rectangle.Intersect (r s : Rectangle) : Rectangle :=
  let minX := if r.Min.X < s.Min.X then s.Min.X else r.Min.X
  let minY := if r.Min.Y < s.Min.Y then s.Min.Y else r.Min.Y
  let maxX := if r.Max.X > s.Max.X then s.Max.X else r.Max.X
  let maxY := if r.Max.Y > s.Max.Y then s.Max.Y else r.Max.Y
  let t : Rectangle := ⟨⟨minX, minY⟩, ⟨maxX, maxY⟩⟩
  if t.Empty then ZR else t

/-- Go `Rectangle.Overlaps`: whether the two have a non-empty intersection. -/
def Rectangle.Overlaps (r s : Rectangle) : Bool :=
  !r.Empty && !s.Empty &&
    decide (r.Min.X < s.Max.X) && decide (s.Min.X < r.Max.X) &&
    decide (r.Min.Y < s.Max.Y) && decide (s.Min.Y < r.Max.Y)

/-- Go `Rectangle.In`: whether every point of `r` is in `s`. -/
def Rectangle.In (r s : Rectangle) : Bool :=
  if r.Empty then true
  else
    decide (s.Min.X ≤ r.Min.X) && decide (r.Max.X ≤ s.Max.X) &&
      decide (s.Min.Y ≤ r.Min.Y) && decide (r.Max.Y ≤ s.Max.Y)

/-- Go `Point.In`: whether the point is in the rectangle. -/
def Point.In (p : Point) (r : Rectangle) : Bool :=
  decide (r.Min.X ≤ p.X) && decide (p.X < r.Max.X) &&
    decide (r.Min.Y ≤ p.Y) && decide (p.Y < r.Max.Y)

/-- A well-formed rectangle: `Min.X ≤ Max.X` and `Min.Y ≤ Max.Y`. -/
def Rectangle.WellFormed (r : Rectangle) : Prop :=
  r.Min.X ≤ r.Max.X ∧ r.Min.Y ≤ r.Max.Y

/-! ## The random source -/

/-- The random source: a stream of raw draws and the position of the next one. -/
structure Rand where
  draws : Nat → Nat
  pos : Nat

/-- Go `rand.Intn`: a number in `[0, n)`; panics (`none`) when `n ≤ 0`. -/
def Intn (n : Int) (g : Rand) : Option (Int × Rand) :=
  if n ≤ 0 then none
  else some ((g.draws g.pos : Int) % n, ⟨g.draws, g.pos + 1⟩)

/-! ## `splitRectangle` -/

/-- The error value of `splitRectangle`. -/
def errNotEnoughRoom : String := "Not enough room to split"

/-- The three results `(s1, s2, err)` of `splitRectangle`; `err = none` is Go's
nil error. -/
structure SplitResult where
  s1 : Rectangle
  s2 : Rectangle
  err : Option String
deriving DecidableEq, Repr

/-- The value of a Go `int` (64 bits, two's complement) after a sum or a
difference whose exact result is `x`: `x` itself inside the range, wrapped
around outside. -/
def wrap (x : Int) : Int :=
  (x + 9223372036854775808) % 18446744073709551616 - 9223372036854775808

/-- The function `splitRectangle` of `main.go`: draw the axis, compute the offset
range, fail when it has no room, otherwise draw the offset and cut. Each sum
and difference is a Go `int` operation and wraps. -/
def splitRectangle (r : Rectangle) (padding : Int) (g : Rand) :
    Option (SplitResult × Rand) :=
  match Intn 2 g with
  | none => none
  | some (axis, g1) =>
    if axis = 0 then
      let min := wrap (r.Min.X + padding)
      let max := wrap (r.Max.X - padding)
      if wrap (max - min) ≤ 0 then some (⟨r, r, some errNotEnoughRoom⟩, g1)
      else
        match Intn (wrap (max - min)) g1 with
        | none => none
        | some (d, g2) =>
          let offset := wrap (d + min)
          some (⟨Rect r.Min.X r.Min.Y offset r.Max.Y,
                 Rect offset r.Min.Y r.Max.X r.Max.Y, none⟩, g2)
    else
      let min := wrap (r.Min.Y + padding)
      let max := wrap (r.Max.Y - padding)
      if wrap (max - min) ≤ 0 then some (⟨r, r, some errNotEnoughRoom⟩, g1)
      else
        match Intn (wrap (max - min)) g1 with
        | none => none
        | some (d, g2) =>
          let offset := wrap (d + min)
          some (⟨Rect r.Min.X r.Min.Y r.Max.X offset,
                 Rect r.Min.X offset r.Max.X r.Max.Y, none⟩, g2)

/-! ## `findIntersections` -/

/-- The inner loop of the first phase of `findIntersections`, for a fixed `r`:
it ranges over a snapshot of `rs[i+1:]` and carries the growing list `rs` and
the keys of `seenIntersections`. -/
def intersectInner (r : Rectangle) :
    List Rectangle → List Rectangle × List Rectangle → List Rectangle × List Rectangle
  | [], st => st
  | s :: rest, (rs, seen) =>
    let intersection := r.Intersect s
    if !intersection.Empty && !decide (intersection ∈ seen) then
      intersectInner r rest (rs ++ [intersection], intersection :: seen)
    else
      intersectInner r rest (rs, seen)

/-- The outer loop of the first phase: `for i, r := range rs` ranges over the
list as it was on entry (first argument, the part still to visit, with `i` the
index of its head), while `rs[i+1:]` is taken from the current list. -/
def intersectOuter :
    List Rectangle → Nat → List Rectangle × List Rectangle → List Rectangle × List Rectangle
  | [], _, st => st
  | r :: todo, i, (rs, seen) =>
    intersectOuter todo (i + 1) (intersectInner r (rs.drop (i + 1)) (rs, seen))

/-- The list `rs` after the first phase of `findIntersections` (the enlarged
candidate pool). -/
def enlarged (rs : List Rectangle) : List Rectangle :=
  (intersectOuter rs 0 (rs, [])).1

/-- The test of the second phase: whether some `s` of the list knocks `r` out. -/
def rOverlaps (rs : List Rectangle) (r : Rectangle) : Bool :=
  rs.any (fun s => r.Overlaps s && decide (r ≠ s) && !r.In s)

/-- The second phase of `findIntersections`: keep, in order, the rectangles
that no other one knocks out. -/
def noOverlap (rs : List Rectangle) : List Rectangle :=
  rs.filter (fun r => !rOverlaps rs r)

/-- The function `findIntersections` of `main.go`. -/
def findIntersections (rs : List Rectangle) : List Rectangle :=
  noOverlap (enlarged rs)

/-! ## `getRectangles` -/

/-- The splitting loop of `getRectangles`: `n` iterations still to run. -/
def splitLoop (padding : Int) : Nat → List Rectangle → Rand → Option (List Rectangle × Rand)
  | 0, rectangles, g => some (rectangles, g)
  | n + 1, rectangles, g =>
    match Intn (rectangles.length : Int) g with
    | none => none
    | some (k, g1) =>
      match rectangles[k.toNat]? with
      | none => none
      | some r =>
        match splitRectangle r padding g1 with
        | none => none
        | some (res, g2) =>
          match res.err with
          | some _ => splitLoop padding n rectangles g2
          | none => splitLoop padding n (rectangles ++ [res.s1, res.s2]) g2

/-- The candidate list of `getRectangles` before deduplication, with the drawn
`numSplits`: the seed, the children of the successful splits, and the two halves. -/
def candidates (initialRectangle : Rectangle) (g : Rand) :
    Option (List Rectangle × Nat × Rand) :=
  let leftRect := Rect initialRectangle.Min.X initialRectangle.Min.Y
    (Int.tdiv initialRectangle.Max.X 2) initialRectangle.Max.Y
  let rightRect := Rect (Int.tdiv initialRectangle.Max.X 2) initialRectangle.Min.Y
    initialRectangle.Max.X initialRectangle.Max.Y
  match Intn 30 g with
  | none => none
  | some (d, g1) =>
    let numSplits := (15 + d).toNat
    let padding : Int := 100
    match splitLoop padding numSplits [initialRectangle] g1 with
    | none => none
    | some (rectangles, g2) => some (rectangles ++ [leftRect, rightRect], numSplits, g2)

/-- The deduplication loop of `getRectangles`, carrying `uniqueRectangles` and
the keys of `seen`. -/
def dedupLoop : List Rectangle → List Rectangle → List Rectangle → List Rectangle
  | [], uniqueRectangles, _ => uniqueRectangles
  | r :: rest, uniqueRectangles, seen =>
    if !decide (r ∈ seen) then dedupLoop rest (uniqueRectangles ++ [r]) (r :: seen)
    else dedupLoop rest uniqueRectangles seen

/-- The list `uniqueRectangles` that `getRectangles` hands to `findIntersections`:
`make([]image.Rectangle, numSplits)` is a slice of `numSplits` zero rectangles,
and the loop appends to it. -/
def uniqueRectangles (numSplits : Nat) (rectangles : List Rectangle) : List Rectangle :=
  dedupLoop rectangles (List.replicate numSplits ZR) []

/-- The function `getRectangles` of `main.go`. -/
def getRectangles (initialRectangle : Rectangle) (g : Rand) : Option (List Rectangle × Rand) :=
  match candidates initialRectangle g with
  | none => none
  | some (rectangles, numSplits, g1) =>
    some (findIntersections (uniqueRectangles numSplits rectangles), g1)

/-! ## `mondrian`: the fill decision and the painting loop

The types and functions of Go's `image`, `image/color` and `image/draw`
packages that `mondrian` calls are embedded as far as the painting depends on
them: an image is its bounds and its colour at each point, and `draw.Draw` with
`draw.Src` copies the source into the clipped rectangle. -/

/-- The constant `RED` of `main.go` (`iota`, so 0). -/
def RED : Int := 0

/-- The constant `BLUE` of `main.go`. -/
def BLUE : Int := 1

/-- The constant `YELLOW` of `main.go`. -/
def YELLOW : Int := 2

/-- The constant `COPY` of `main.go`. -/
def COPY : Int := 3

/-- The constant `WHITE` of `main.go`. -/
def WHITE : Int := 4

/-- Go `color.RGBA`. -/
structure Color where
  R : Nat
  G : Nat
  B : Nat
  A : Nat
deriving DecidableEq, Repr

/-- Go `image.Image`, as far as painting reads it: `Bounds()` and `At(x, y)`. -/
structure Image where
  Bounds : Rectangle
  At : Point → Color

/-- Go `image.Uniform`: an image of one colour with the bounds
(-1e9,-1e9)-(1e9,1e9). -/
def Uniform (c : Color) : Image :=
  ⟨⟨⟨-1000000000, -1000000000⟩, ⟨1000000000, 1000000000⟩⟩, fun _ => c⟩

/-- Go `*image.RGBA`, the destination canvas: its bounds and its stored pixels. -/
structure Canvas where
  Bounds : Rectangle
  Pix : Point → Color

/-- Go `(*image.RGBA).At`: the stored pixel inside the bounds, the zero colour
outside. -/
def Canvas.At (c : Canvas) (p : Point) : Color :=
  if p.In c.Bounds then c.Pix p else ⟨0, 0, 0, 0⟩

/-- Go `image.NewRGBA`: a canvas of zero pixels. -/
def NewRGBA (r : Rectangle) : Canvas := ⟨r, fun _ => ⟨0, 0, 0, 0⟩⟩

/-- Go `image.ZP`, the zero point. -/
def ZP : Point := ⟨0, 0⟩

/-- Go `Point.Sub`. -/
def Point.Sub (p q : Point) : Point := ⟨p.X - q.X, p.Y - q.Y⟩

/-- Go `Rectangle.Add`: the rectangle translated by `p`. -/
def Rectangle.Add (r : Rectangle) (p : Point) : Rectangle :=
  ⟨⟨r.Min.X + p.X, r.Min.Y + p.Y⟩, ⟨r.Max.X + p.X, r.Max.Y + p.Y⟩⟩

/-- Go `Rectangle.Inset`: the rectangle shrunk by `n` on every side; an axis
shorter than `2*n` collapses to its midpoint. -/
def Rectangle.Inset (r : Rectangle) (n : Int) : Rectangle :=
  let xs : Int × Int :=
    if r.Dx < 2 * n then (Int.tdiv (r.Min.X + r.Max.X) 2, Int.tdiv (r.Min.X + r.Max.X) 2)
    else (r.Min.X + n, r.Max.X - n)
  let ys : Int × Int :=
    if r.Dy < 2 * n then (Int.tdiv (r.Min.Y + r.Max.Y) 2, Int.tdiv (r.Min.Y + r.Max.Y) 2)
    else (r.Min.Y + n, r.Max.Y - n)
  ⟨⟨xs.1, ys.1⟩, ⟨xs.2, ys.2⟩⟩

/-- Go `draw.Draw(dst, r, src, sp, draw.Src)`: `r` is clipped to the bounds of
`dst` and to the bounds of `src` moved by `r.Min - sp`, `sp` moves with the
clipped corner, and every pixel of the clipped rectangle takes the colour of
the matching source point; the other pixels are left as they were. -/
def Draw (dst : Canvas) (r : Rectangle) (src : Image) (sp : Point) : Canvas :=
  let orig := r.Min
  let r1 := r.Intersect dst.Bounds
  let r2 := r1.Intersect (src.Bounds.Add (orig.Sub sp))
  let sp2 : Point := ⟨sp.X + (r2.Min.X - orig.X), sp.Y + (r2.Min.Y - orig.Y)⟩
  if r2.Empty then dst
  else
    ⟨dst.Bounds, fun p =>
      if p.In r2 then src.At ⟨sp2.X + (p.X - r2.Min.X), sp2.Y + (p.Y - r2.Min.Y)⟩
      else dst.Pix p⟩

/-- The colour `borderColor` of `mondrian`: black. -/
def borderColor : Color := ⟨0, 0, 0, 255⟩

/-- The map `imageMap` of `mondrian`: the four uniform colours and, under
`COPY`, the source image; any other key has no entry (a nil image). -/
def imageMap (img : Image) (key : Int) : Option Image :=
  if key = RED then some (Uniform ⟨255, 0, 0, 255⟩)
  else if key = BLUE then some (Uniform ⟨0, 0, 255, 255⟩)
  else if key = YELLOW then some (Uniform ⟨255, 255, 0, 255⟩)
  else if key = WHITE then some (Uniform ⟨255, 255, 255, 255⟩)
  else if key = COPY then some img
  else none

/-- The fill decision of the loop of `mondrian`: the key of `imageMap` that
`imageToCopy` is read from. The first draw decides `isCopyOrWhite`. -/
def fillKey (g : Rand) : Option (Int × Rand) :=
  match Intn 4 g with
  | none => none
  | some (a, g1) =>
    let isCopyOrWhite := a != 0
    if isCopyOrWhite then
      match Intn 4 g1 with
      | none => none
      | some (b, g2) => if b = 0 then some (COPY, g2) else some (WHITE, g2)
    else
      match Intn (WHITE + 1) g1 with
      | none => none
      | some (c, g2) => some (c, g2)

/-- The painting loop of `mondrian`: for each rectangle, decide the fill, inset
the rectangle by 2 and draw the fill into the inset. Drawing a nil image
panics. -/
def paintLoop (img : Image) : List Rectangle → Canvas → Rand → Option (Canvas × Rand)
  | [], dst, g => some (dst, g)
  | r :: rest, dst, g =>
    match fillKey g with
    | none => none
    | some (key, g1) =>
      match imageMap img key with
      | none => none
      | some imageToCopy =>
        let inset := r.Inset 2
        paintLoop img rest (Draw dst inset imageToCopy inset.Min) g1

/-- The function `mondrian` of `main.go`. -/
def mondrian (img : Image) (g : Rand) : Option (Canvas × Rand) :=
  match getRectangles img.Bounds g with
  | none => none
  | some (rectangles, g1) =>
    let dst := NewRGBA (Rect 0 0 img.Bounds.Dx img.Bounds.Dy)
    let dst1 := Draw dst dst.Bounds (Uniform borderColor) ZP
    paintLoop img rectangles dst1 g1

/-! ## Auxiliary definitions used by the proofs -/

/-- The componentwise meet of two rectangles, before `Intersect` replaces an
empty result by `ZR`. -/
def Rectangle.meet (r s : Rectangle) : Rectangle :=
  ⟨⟨max r.Min.X s.Min.X, max r.Min.Y s.Min.Y⟩, ⟨min r.Max.X s.Max.X, min r.Max.Y s.Max.Y⟩⟩

/-- The random source after one draw. -/
def Rand.next (g : Rand) : Rand := ⟨g.draws, g.pos + 1⟩

/-- The value of the axis draw `rand.Intn(2)` that `splitRectangle` makes first;
`0` selects the vertical cut. -/
def axisDraw (g : Rand) : Int := (g.draws g.pos : Int) % 2

/-- The value of the offset draw `rand.Intn(n)` that `splitRectangle` makes second. -/
def offsetDraw (g : Rand) (n : Int) : Int := (g.draws (g.pos + 1) : Int) % n

/-- The number `x` is a value of Go's 64-bit `int`. -/
def IsInt64 (x : Int) : Prop :=
  -9223372036854775808 ≤ x ∧ x ≤ 9223372036854775807

/-- On an axis with bounds `lo`, `hi`, the three values `lo + padding`,
`hi - padding` and their difference, which `splitRectangle` computes, are
values of a 64-bit `int`: none of them wraps. -/
def NoOverflow (lo hi padding : Int) : Prop :=
  IsInt64 (lo + padding) ∧ IsInt64 (hi - padding) ∧
    IsInt64 ((hi - padding) - (lo + padding))

/-- Nothing wraps in `splitRectangle r padding` on the axis that the stream `g`
draws. -/
def NoWrap (r : Rectangle) (padding : Int) (g : Rand) : Prop :=
  if axisDraw g = 0 then NoOverflow r.Min.X r.Max.X padding
  else NoOverflow r.Min.Y r.Max.Y padding

/-- The coordinates of the rectangle are non-negative values of a 64-bit `int`
and its minimum can take a padding of 100 without overflow. -/
def Bounded100 (c : Rectangle) : Prop :=
  (0 ≤ c.Min.X ∧ c.Min.X + 100 ≤ 9223372036854775807 ∧ c.Max.X ≤ 9223372036854775807) ∧
    (0 ≤ c.Min.Y ∧ c.Min.Y + 100 ≤ 9223372036854775807 ∧ c.Max.Y ≤ 9223372036854775807)

/-- The rectangles generated from a list: its elements, and `r.Intersect t` for
`r` in the list and `t` generated, when the two overlap. Every element of the
enlarged list of `findIntersections` is of this kind. -/
inductive Generated (orig : List Rectangle) : Rectangle → Prop
  | base (a : Rectangle) : a ∈ orig → Generated orig a
  | step (r t : Rectangle) :
      r ∈ orig → Generated orig t → r.Overlaps t = true → Generated orig (r.Intersect t)

/-- The list `l` contains `q.Intersect a` for every `q` of `d` and every `a` of
`l` that overlap. -/
def ClosedUnder (d l : List Rectangle) : Prop :=
  ∀ q ∈ d, ∀ a ∈ l, q.Overlaps a = true → q.Intersect a ∈ l

/-- The pair `s1`, `s2` is a clean cut of `r`: both are well-formed, they do not
overlap, every point of `r` is in one of them, and whatever overlaps one of them
overlaps `r`. -/
def IsCut (r s1 s2 : Rectangle) : Prop :=
  s1.WellFormed ∧ s2.WellFormed ∧ s1.Overlaps s2 = false ∧
    (∀ p : Point, p.In r = true → p.In s1 = true ∨ p.In s2 = true) ∧
    (∀ d : Rectangle, d.Overlaps s1 = true → d.Overlaps r = true) ∧
    (∀ d : Rectangle, d.Overlaps s2 = true → d.Overlaps r = true)

/-- Every rectangle of `l` that misses a point of `seed` is separated from it: some
rectangle of `l` contains the point and does not overlap it. -/
def Separated (seed : Rectangle) (l : List Rectangle) : Prop :=
  ∀ c ∈ l, ∀ p : Point, p.In seed = true → p.In c = false →
    ∃ d ∈ l, p.In d = true ∧ d.Overlaps c = false

/-- The invariant of the candidate list of `getRectangles`: it contains the
seed, its rectangles are well-formed, and it is separated. -/
def CandidatesOk (seed : Rectangle) (l : List Rectangle) : Prop :=
  seed ∈ l ∧ (∀ c ∈ l, c.WellFormed) ∧ Separated seed l

/-- The first phase as the specification words it, for comparison with the
code: a single pass over the pairs `i < j` of the list as it was on entry, the
inner loop ranging over the original elements after `r` only. -/
def specOuter :
    List Rectangle → List Rectangle × List Rectangle → List Rectangle × List Rectangle
  | [], st => st
  | r :: todo, st => specOuter todo (intersectInner r todo st)

/-- The enlarged list as the specification words it (original pairs only). -/
def specEnlarged (rs : List Rectangle) : List Rectangle :=
  (specOuter rs (rs, [])).1

/-- The iteration record of the first phase: `intersectOuter` with, for each
outer iteration, the length of the list when its inner loop starts and the
number of elements the inner loop ranges over. -/
def intersectOuterIters :
    List Rectangle → Nat → List Rectangle × List Rectangle → List (Nat × Nat)
  | [], _, _ => []
  | r :: todo, i, (rs, seen) =>
    (rs.length, (rs.drop (i + 1)).length) ::
      intersectOuterIters todo (i + 1) (intersectInner r (rs.drop (i + 1)) (rs, seen))

/-- The number of successful splits of the splitting loop: `splitLoop` with a
counter in place of the list it returns. -/
def splitCount (padding : Int) : Nat → List Rectangle → Rand → Option Nat
  | 0, _, _ => some 0
  | n + 1, rectangles, g =>
    match Intn (rectangles.length : Int) g with
    | none => none
    | some (k, g1) =>
      match rectangles[k.toNat]? with
      | none => none
      | some r =>
        match splitRectangle r padding g1 with
        | none => none
        | some (res, g2) =>
          match res.err with
          | some _ => splitCount padding n rectangles g2
          | none =>
            match splitCount padding n (rectangles ++ [res.s1, res.s2]) g2 with
            | none => none
            | some c => some (c + 1)

/-- Every appended rectangle is non-empty and is the intersection of an
original rectangle with an element that stands before it in the list. -/
def AppendedFrom (orig app : List Rectangle) : Prop :=
  ∀ (k : Nat) (a : Rectangle), app[k]? = some a →
    a.Empty = false ∧
      ∃ r ∈ orig, ∃ t ∈ orig ++ app.take k, r.Overlaps t = true ∧ a = r.Intersect t

/-! ## Geometry lemmas -/

theorem Rectangle.eq_iff (r s : Rectangle) :
    r = s ↔ r.Min.X = s.Min.X ∧ r.Min.Y = s.Min.Y ∧ r.Max.X = s.Max.X ∧ r.Max.Y = s.Max.Y := by
  obtain ⟨⟨a, b⟩, ⟨c, d⟩⟩ := r
  obtain ⟨⟨e, f⟩, ⟨g, h⟩⟩ := s
  simp only [Rectangle.mk.injEq, Point.mk.injEq]
  tauto

theorem Rectangle.Empty_iff (r : Rectangle) :
    r.Empty = true ↔ r.Max.X ≤ r.Min.X ∨ r.Max.Y ≤ r.Min.Y := by
  simp [Rectangle.Empty]

theorem Rectangle.not_Empty_iff (r : Rectangle) :
    r.Empty = false ↔ r.Min.X < r.Max.X ∧ r.Min.Y < r.Max.Y := by
  simp [Rectangle.Empty]

theorem Rectangle.Overlaps_iff (r s : Rectangle) :
    r.Overlaps s = true ↔
      (r.Min.X < r.Max.X ∧ r.Min.Y < r.Max.Y) ∧ (s.Min.X < s.Max.X ∧ s.Min.Y < s.Max.Y) ∧
        r.Min.X < s.Max.X ∧ s.Min.X < r.Max.X ∧ r.Min.Y < s.Max.Y ∧ s.Min.Y < r.Max.Y := by
  simp [Rectangle.Overlaps, Rectangle.Empty]
  tauto

theorem Rectangle.In_iff (r s : Rectangle) :
    r.In s = true ↔
      (r.Max.X ≤ r.Min.X ∨ r.Max.Y ≤ r.Min.Y) ∨
        (s.Min.X ≤ r.Min.X ∧ r.Max.X ≤ s.Max.X ∧ s.Min.Y ≤ r.Min.Y ∧ r.Max.Y ≤ s.Max.Y) := by
  unfold Rectangle.In
  by_cases h : r.Empty = true
  · simp [h, (Rectangle.Empty_iff r).1 h]
  · have h2 : ¬ (r.Max.X ≤ r.Min.X ∨ r.Max.Y ≤ r.Min.Y) := fun c => h ((Rectangle.Empty_iff r).2 c)
    simp [h, h2]
    tauto

theorem Point.In_bounds_iff (p : Point) (r : Rectangle) :
    p.In r = true ↔ r.Min.X ≤ p.X ∧ p.X < r.Max.X ∧ r.Min.Y ≤ p.Y ∧ p.Y < r.Max.Y := by
  simp [Point.In]
  tauto

theorem Rectangle.Intersect_eq (r s : Rectangle) :
    r.Intersect s = if (r.meet s).Empty then ZR else r.meet s := by
  have h : (⟨⟨if r.Min.X < s.Min.X then s.Min.X else r.Min.X,
        if r.Min.Y < s.Min.Y then s.Min.Y else r.Min.Y⟩,
      ⟨if r.Max.X > s.Max.X then s.Max.X else r.Max.X,
        if r.Max.Y > s.Max.Y then s.Max.Y else r.Max.Y⟩⟩ : Rectangle) = r.meet s := by
    rw [Rectangle.eq_iff]
    simp only [Rectangle.meet]
    refine ⟨?_, ?_, ?_, ?_⟩ <;> split_ifs <;> omega
  simp only [Rectangle.Intersect, h]

theorem Rectangle.meet_Empty_iff (r s : Rectangle) :
    (r.meet s).Empty = false ↔ r.Overlaps s = true := by
  rw [Rectangle.not_Empty_iff, Rectangle.Overlaps_iff]
  simp only [Rectangle.meet]
  omega

theorem ZR_Empty : ZR.Empty = true := by decide

theorem Rectangle.Intersect_Empty_iff (r s : Rectangle) :
    (r.Intersect s).Empty = false ↔ r.Overlaps s = true := by
  rw [Rectangle.Intersect_eq, ← Rectangle.meet_Empty_iff]
  by_cases h : (r.meet s).Empty = true
  · simp [h, ZR_Empty]
  · simp [h]

theorem Rectangle.Intersect_of_Overlaps (r s : Rectangle) (h : r.Overlaps s = true) :
    r.Intersect s = r.meet s := by
  rw [Rectangle.Intersect_eq]
  have h2 := (Rectangle.meet_Empty_iff r s).2 h
  simp [h2]

theorem Rectangle.Intersect_of_not_Overlaps (r s : Rectangle) (h : r.Overlaps s = false) :
    r.Intersect s = ZR := by
  rw [Rectangle.Intersect_eq]
  have h2 : (r.meet s).Empty = true := by
    by_contra c
    have c2 : (r.meet s).Empty = false := by simpa using c
    rw [Rectangle.meet_Empty_iff] at c2
    simp [h] at c2
  simp [h2]

theorem Rectangle.Overlaps_comm (r s : Rectangle) : r.Overlaps s = s.Overlaps r := by
  rw [Bool.eq_iff_iff, Rectangle.Overlaps_iff, Rectangle.Overlaps_iff]
  tauto

theorem Rectangle.In_self (r : Rectangle) : r.In r = true := by
  rw [Rectangle.In_iff]
  omega

theorem Rectangle.eq_of_Overlaps_In_In (r s : Rectangle) (h : r.Overlaps s = true)
    (h1 : r.In s = true) (h2 : s.In r = true) : r = s := by
  rw [Rectangle.Overlaps_iff] at h
  rw [Rectangle.In_iff] at h1 h2
  rw [Rectangle.eq_iff]
  omega

/-! ## The second phase of `findIntersections` -/

theorem rOverlaps_eq_false_iff (rs : List Rectangle) (r : Rectangle) :
    rOverlaps rs r = false ↔ ∀ s ∈ rs, r.Overlaps s = true → r.In s = true := by
  unfold rOverlaps
  rw [List.any_eq_false]
  constructor
  · intro h s hs ho
    have h1 := h s hs
    by_cases he : r = s
    · subst he
      exact Rectangle.In_self r
    · simpa [ho, he] using h1
  · intro h s hs
    by_cases ho : r.Overlaps s = true
    · simp [h s hs ho]
    · simp [ho]

theorem mem_noOverlap (rs : List Rectangle) (r : Rectangle) :
    r ∈ noOverlap rs ↔ r ∈ rs ∧ ∀ s ∈ rs, r.Overlaps s = true → r.In s = true := by
  unfold noOverlap
  rw [List.mem_filter, ← rOverlaps_eq_false_iff]
  simp

/-! ## The first phase of `findIntersections` on lists without overlaps -/

theorem intersectInner_cons_append (r s : Rectangle) (rest rs seen : List Rectangle)
    (h1 : (r.Intersect s).Empty = false) (h2 : r.Intersect s ∉ seen) :
    intersectInner r (s :: rest) (rs, seen)
      = intersectInner r rest (rs ++ [r.Intersect s], r.Intersect s :: seen) := by
  rw [intersectInner]
  simp [h1, h2]

theorem intersectInner_cons_skip (r s : Rectangle) (rest rs seen : List Rectangle)
    (h : (r.Intersect s).Empty = true ∨ r.Intersect s ∈ seen) :
    intersectInner r (s :: rest) (rs, seen) = intersectInner r rest (rs, seen) := by
  rw [intersectInner]
  rcases h with h | h <;> simp [h]

theorem intersectInner_of_no_overlap (r : Rectangle) (l : List Rectangle)
    (st : List Rectangle × List Rectangle) (h : ∀ s ∈ l, r.Overlaps s = false) :
    intersectInner r l st = st := by
  induction l with
  | nil => rfl
  | cons s rest ih =>
    obtain ⟨rs, seen⟩ := st
    have hs : r.Overlaps s = false := h s (List.mem_cons_self _ _)
    have he : (r.Intersect s).Empty = true := by
      rw [Rectangle.Intersect_of_not_Overlaps r s hs]
      exact ZR_Empty
    simp only [intersectInner, he]
    exact ih (fun t ht => h t (List.mem_cons_of_mem _ ht))

theorem intersectOuter_of_no_overlap (todo : List Rectangle) :
    ∀ (i : Nat) (rs seen : List Rectangle), rs.drop i = todo →
      rs.Pairwise (fun a b => a.Overlaps b = false) →
      intersectOuter todo i (rs, seen) = (rs, seen) := by
  induction todo with
  | nil => intro i rs seen _ _; rfl
  | cons r todo ih =>
    intro i rs seen hd hp
    have hd2 : rs.drop (i + 1) = todo := by
      rw [← List.drop_drop, hd]
      rfl
    have hp2 : (r :: todo).Pairwise (fun a b => a.Overlaps b = false) := by
      rw [← hd]
      exact hp.sublist (List.drop_sublist i rs)
    have hall : ∀ s ∈ todo, r.Overlaps s = false := (List.pairwise_cons.1 hp2).1
    simp only [intersectOuter, hd2]
    rw [intersectInner_of_no_overlap r todo (rs, seen) hall]
    exact ih (i + 1) rs seen hd2 hp

theorem pairwise_of_index_disjoint (rs : List Rectangle)
    (h : ∀ (i j : Nat) (a b : Rectangle), rs[i]? = some a → rs[j]? = some b → i ≠ j →
      a.Overlaps b = false) :
    rs.Pairwise (fun a b => a.Overlaps b = false) := by
  rw [List.pairwise_iff_getElem]
  intro i j hi hj hij
  exact h i j rs[i] rs[j] (List.getElem?_eq_getElem hi) (List.getElem?_eq_getElem hj)
    (Nat.ne_of_lt hij)

/-! ## Claims about `findIntersections` -/

/-- C3: on a list whose rectangles are pairwise non-overlapping (at different
positions), `findIntersections` returns the list unchanged: nothing is appended
in the first phase and nothing is removed in the second. -/
theorem findIntersections_of_disjoint (rs : List Rectangle)
    (h : ∀ (i j : Nat) (a b : Rectangle), rs[i]? = some a → rs[j]? = some b → i ≠ j →
      a.Overlaps b = false) :
    enlarged rs = rs ∧ findIntersections rs = rs := by
  have hp := pairwise_of_index_disjoint rs h
  have he : enlarged rs = rs := by
    unfold enlarged
    rw [intersectOuter_of_no_overlap rs 0 rs [] rfl hp]
  refine ⟨he, ?_⟩
  unfold findIntersections
  rw [he]
  unfold noOverlap
  rw [List.filter_eq_self]
  intro r hr
  have hsym : Symmetric (fun a b : Rectangle => a.Overlaps b = false) := by
    intro a b hab
    rw [Rectangle.Overlaps_comm]
    exact hab
  have hf : rOverlaps rs r = false := by
    rw [rOverlaps_eq_false_iff]
    intro s hs ho
    by_cases hrs : r = s
    · subst hrs
      exact Rectangle.In_self r
    · have := hp.forall hsym hr hs hrs
      simp [ho] at this
  simp [hf]

/-- C3, at the two disjoint rectangles (0,0)-(10,10) and (20,20)-(30,30): both
come back, in order. -/
theorem findIntersections_of_disjoint_witness :
    findIntersections [⟨⟨0, 0⟩, ⟨10, 10⟩⟩, ⟨⟨20, 20⟩, ⟨30, 30⟩⟩]
      = [⟨⟨0, 0⟩, ⟨10, 10⟩⟩, ⟨⟨20, 20⟩, ⟨30, 30⟩⟩] :=
  (findIntersections_of_disjoint [⟨⟨0, 0⟩, ⟨10, 10⟩⟩, ⟨⟨20, 20⟩, ⟨30, 30⟩⟩] (by
    intro i j a b hi hj hij
    match i, j with
    | 0, 0 => exact absurd rfl hij
    | 0, 1 =>
      simp only [List.getElem?_cons_zero, List.getElem?_cons_succ, Option.some.injEq] at hi hj
      subst hi hj
      decide
    | 1, 0 =>
      simp only [List.getElem?_cons_zero, List.getElem?_cons_succ, Option.some.injEq] at hi hj
      subst hi hj
      decide
    | 1, 1 => exact absurd rfl hij
    | 0, j + 2 => simp at hj
    | 1, j + 2 => simp at hj
    | i + 2, _ => simp at hi)).2

theorem Rectangle.meet_In_left (r s : Rectangle) : (r.meet s).In r = true := by
  rw [Rectangle.In_iff]
  simp only [Rectangle.meet]
  omega

theorem Rectangle.meet_In_right (r s : Rectangle) : (r.meet s).In s = true := by
  rw [Rectangle.In_iff]
  simp only [Rectangle.meet]
  omega

/-- C4: two rectangles that overlap (so both are non-empty), neither inside the other: the
first phase appends their intersection to the pool, and the output is exactly
that intersection; neither original survives. -/
theorem findIntersections_two_overlapping (A B : Rectangle)
    (ho : A.Overlaps B = true)
    (hAB : A.In B = false) (hBA : B.In A = false) :
    enlarged [A, B] = [A, B, A.Intersect B] ∧
      findIntersections [A, B] = [A.Intersect B] ∧
      A ∉ findIntersections [A, B] ∧ B ∉ findIntersections [A, B] := by
  have hX : A.Intersect B = A.meet B := Rectangle.Intersect_of_Overlaps A B ho
  have hXe : (A.meet B).Empty = false := (Rectangle.meet_Empty_iff A B).2 ho
  have hBX : B.Intersect (A.meet B) = A.meet B := by
    have hov : B.Overlaps (A.meet B) = true := by
      rw [Rectangle.Overlaps_iff] at ho ⊢
      simp only [Rectangle.meet]
      omega
    rw [Rectangle.Intersect_of_Overlaps B _ hov, Rectangle.eq_iff]
    simp only [Rectangle.meet]
    omega
  have hXA : A.meet B ≠ A := by
    intro c
    have := Rectangle.meet_In_right A B
    rw [c, hAB] at this
    exact Bool.false_ne_true this
  have hXB : A.meet B ≠ B := by
    intro c
    have := Rectangle.meet_In_left A B
    rw [c, hBA] at this
    exact Bool.false_ne_true this
  have hen : enlarged [A, B] = [A, B, A.meet B] := by
    unfold enlarged
    rw [intersectOuter, List.drop_one, List.tail_cons,
      intersectInner_cons_append A B [] [A, B] [] (by rw [hX]; exact hXe) (by simp),
      intersectInner, intersectOuter]
    have hd : List.drop (1 + 1) ([A, B] ++ [A.Intersect B]) = [A.Intersect B] := rfl
    rw [hd, intersectInner_cons_skip B (A.Intersect B) [] _ _
      (Or.inr (by rw [hX, hBX]; simp)), intersectInner, intersectOuter, hX]
    rfl
  have hneAB : A ≠ B := by
    intro c
    rw [c, Rectangle.In_self] at hAB
    exact Bool.false_ne_true hAB.symm
  have hrA : rOverlaps [A, B, A.meet B] A = true := by
    unfold rOverlaps
    rw [List.any_eq_true]
    exact ⟨B, by simp, by simp [ho, hAB, hneAB]⟩
  have hrB : rOverlaps [A, B, A.meet B] B = true := by
    unfold rOverlaps
    rw [List.any_eq_true]
    refine ⟨A, by simp, ?_⟩
    rw [Rectangle.Overlaps_comm] at ho
    simp [ho, hBA, Ne.symm hneAB]
  have hrX : rOverlaps [A, B, A.meet B] (A.meet B) = false := by
    rw [rOverlaps_eq_false_iff]
    intro s hs _
    simp only [List.mem_cons, List.mem_singleton, List.not_mem_nil, or_false] at hs
    rcases hs with h | h | h
    · rw [h]; exact Rectangle.meet_In_left A B
    · rw [h]; exact Rectangle.meet_In_right A B
    · rw [h]; exact Rectangle.In_self _
  have hout : findIntersections [A, B] = [A.meet B] := by
    unfold findIntersections
    rw [hen]
    simp [noOverlap, List.filter, hrA, hrB, hrX]
  rw [hout, hX]
  refine ⟨hen, rfl, ?_, ?_⟩
  · simpa using Ne.symm hXA
  · simpa using Ne.symm hXB

/-- C4, at A = (0,0)-(10,10) and B = (5,5)-(15,15): the pool gains (5,5)-(10,10),
which is the whole output. -/
theorem findIntersections_two_overlapping_witness :
    enlarged [⟨⟨0, 0⟩, ⟨10, 10⟩⟩, ⟨⟨5, 5⟩, ⟨15, 15⟩⟩]
        = [⟨⟨0, 0⟩, ⟨10, 10⟩⟩, ⟨⟨5, 5⟩, ⟨15, 15⟩⟩, ⟨⟨5, 5⟩, ⟨10, 10⟩⟩] ∧
      findIntersections [⟨⟨0, 0⟩, ⟨10, 10⟩⟩, ⟨⟨5, 5⟩, ⟨15, 15⟩⟩] = [⟨⟨5, 5⟩, ⟨10, 10⟩⟩] :=
  have h := findIntersections_two_overlapping ⟨⟨0, 0⟩, ⟨10, 10⟩⟩ ⟨⟨5, 5⟩, ⟨15, 15⟩⟩
    (by decide) (by decide) (by decide)
  ⟨h.1, h.2.1⟩

/-- C1 fails on the code: on the input [(0,0)-(10,10), (2,2)-(5,5)] the first
phase appends the intersection (2,2)-(5,5) although the list already holds it
(`seenIntersections` records appended values only), the second phase keeps
both copies, and the output entries at positions 0 and 1 overlap. -/
theorem findIntersections_positions_overlap :
    findIntersections [⟨⟨0, 0⟩, ⟨10, 10⟩⟩, ⟨⟨2, 2⟩, ⟨5, 5⟩⟩]
        = [⟨⟨2, 2⟩, ⟨5, 5⟩⟩, ⟨⟨2, 2⟩, ⟨5, 5⟩⟩] ∧
      ¬ (∀ (i j : Nat) (a b : Rectangle),
          (findIntersections [⟨⟨0, 0⟩, ⟨10, 10⟩⟩, ⟨⟨2, 2⟩, ⟨5, 5⟩⟩])[i]? = some a →
          (findIntersections [⟨⟨0, 0⟩, ⟨10, 10⟩⟩, ⟨⟨2, 2⟩, ⟨5, 5⟩⟩])[j]? = some b →
          i ≠ j → a.Overlaps b = false) := by
  have h : findIntersections [⟨⟨0, 0⟩, ⟨10, 10⟩⟩, ⟨⟨2, 2⟩, ⟨5, 5⟩⟩]
      = [⟨⟨2, 2⟩, ⟨5, 5⟩⟩, ⟨⟨2, 2⟩, ⟨5, 5⟩⟩] := by decide
  refine ⟨h, ?_⟩
  rw [h]
  intro c
  have := c 0 1 ⟨⟨2, 2⟩, ⟨5, 5⟩⟩ ⟨⟨2, 2⟩, ⟨5, 5⟩⟩ rfl rfl (by decide)
  revert this
  decide

/-! ## `splitRectangle` -/

theorem Intn_of_pos (n : Int) (g : Rand) (h : 0 < n) :
    Intn n g = some ((g.draws g.pos : Int) % n, g.next) := by
  unfold Intn Rand.next
  rw [if_neg (by omega)]

theorem Rect_of_le (x0 y0 x1 y1 : Int) (hx : x0 ≤ x1) (hy : y0 ≤ y1) :
    Rect x0 y0 x1 y1 = ⟨⟨x0, y0⟩, ⟨x1, y1⟩⟩ := by
  unfold Rect
  rw [if_neg (by omega), if_neg (by omega)]

theorem Rect_Dx (x0 y0 x1 y1 : Int) : x1 - x0 ≤ (Rect x0 y0 x1 y1).Dx := by
  unfold Rect Rectangle.Dx
  by_cases h : x0 > x1
  · rw [if_pos h]; simp only; omega
  · rw [if_neg h]

theorem Rect_Dy (x0 y0 x1 y1 : Int) : y1 - y0 ≤ (Rect x0 y0 x1 y1).Dy := by
  unfold Rect Rectangle.Dy
  by_cases h : y0 > y1
  · rw [if_pos h]; simp only; omega
  · rw [if_neg h]

theorem offsetDraw_range (g : Rand) (n : Int) (h : 0 < n) :
    0 ≤ offsetDraw g n ∧ offsetDraw g n < n :=
  ⟨Int.emod_nonneg _ (by omega), Int.emod_lt_of_pos _ h⟩

theorem wrap_eq (x : Int) (h : IsInt64 x) : wrap x = x := by
  unfold wrap
  unfold IsInt64 at h
  omega

/-- The four paths of `splitRectangle`, by the axis draw and the room that the
wrapped difference shows on that axis; none of them panics. -/
theorem splitRectangle_eq (r : Rectangle) (padding : Int) (g : Rand) :
    splitRectangle r padding g =
      if axisDraw g = 0 then
        if wrap (wrap (r.Max.X - padding) - wrap (r.Min.X + padding)) ≤ 0 then
          some (⟨r, r, some errNotEnoughRoom⟩, g.next)
        else
          some (⟨Rect r.Min.X r.Min.Y
                (wrap (offsetDraw g (wrap (wrap (r.Max.X - padding) - wrap (r.Min.X + padding)))
                  + wrap (r.Min.X + padding)))
                r.Max.Y,
              Rect (wrap (offsetDraw g
                    (wrap (wrap (r.Max.X - padding) - wrap (r.Min.X + padding)))
                  + wrap (r.Min.X + padding)))
                r.Min.Y r.Max.X r.Max.Y, none⟩, g.next.next)
      else
        if wrap (wrap (r.Max.Y - padding) - wrap (r.Min.Y + padding)) ≤ 0 then
          some (⟨r, r, some errNotEnoughRoom⟩, g.next)
        else
          some (⟨Rect r.Min.X r.Min.Y r.Max.X
                (wrap (offsetDraw g (wrap (wrap (r.Max.Y - padding) - wrap (r.Min.Y + padding)))
                  + wrap (r.Min.Y + padding))),
              Rect r.Min.X
                (wrap (offsetDraw g
                    (wrap (wrap (r.Max.Y - padding) - wrap (r.Min.Y + padding)))
                  + wrap (r.Min.Y + padding)))
                r.Max.X r.Max.Y, none⟩, g.next.next) := by
  unfold splitRectangle
  rw [Intn_of_pos 2 g (by decide)]
  simp only [axisDraw]
  by_cases ha : (g.draws g.pos : Int) % 2 = 0
  · rw [if_pos ha, if_pos ha]
    by_cases hr : wrap (wrap (r.Max.X - padding) - wrap (r.Min.X + padding)) ≤ 0
    · rw [if_pos hr, if_pos hr]
    · rw [if_neg hr, if_neg hr, Intn_of_pos _ _ (by omega)]
      rfl
  · rw [if_neg ha, if_neg ha]
    by_cases hr : wrap (wrap (r.Max.Y - padding) - wrap (r.Min.Y + padding)) ≤ 0
    · rw [if_pos hr, if_pos hr]
    · rw [if_neg hr, if_neg hr, Intn_of_pos _ _ (by omega)]
      rfl

/-- When nothing wraps on the drawn axis, `splitRectangle` computes with the
exact sums and differences. -/
theorem splitRectangle_exact (r : Rectangle) (padding : Int) (g : Rand)
    (hnw : NoWrap r padding g) :
    splitRectangle r padding g =
      if axisDraw g = 0 then
        if (r.Max.X - padding) - (r.Min.X + padding) ≤ 0 then
          some (⟨r, r, some errNotEnoughRoom⟩, g.next)
        else
          some (⟨Rect r.Min.X r.Min.Y
                (offsetDraw g ((r.Max.X - padding) - (r.Min.X + padding)) + (r.Min.X + padding))
                r.Max.Y,
              Rect (offsetDraw g ((r.Max.X - padding) - (r.Min.X + padding)) + (r.Min.X + padding))
                r.Min.Y r.Max.X r.Max.Y, none⟩, g.next.next)
      else
        if (r.Max.Y - padding) - (r.Min.Y + padding) ≤ 0 then
          some (⟨r, r, some errNotEnoughRoom⟩, g.next)
        else
          some (⟨Rect r.Min.X r.Min.Y r.Max.X
                (offsetDraw g ((r.Max.Y - padding) - (r.Min.Y + padding)) + (r.Min.Y + padding)),
              Rect r.Min.X
                (offsetDraw g ((r.Max.Y - padding) - (r.Min.Y + padding)) + (r.Min.Y + padding))
                r.Max.X r.Max.Y, none⟩, g.next.next) := by
  rw [splitRectangle_eq]
  unfold NoWrap NoOverflow at hnw
  by_cases ha : axisDraw g = 0
  · rw [if_pos ha] at hnw
    obtain ⟨h1, h2, h3⟩ := hnw
    rw [if_pos ha, if_pos ha, wrap_eq _ h1, wrap_eq _ h2, wrap_eq _ h3]
    by_cases hr : (r.Max.X - padding) - (r.Min.X + padding) ≤ 0
    · rw [if_pos hr, if_pos hr]
    · have hd := offsetDraw_range g ((r.Max.X - padding) - (r.Min.X + padding)) (by omega)
      have hin : IsInt64 (offsetDraw g ((r.Max.X - padding) - (r.Min.X + padding))
          + (r.Min.X + padding)) := by
        unfold IsInt64 at h1 h2 ⊢
        omega
      rw [if_neg hr, if_neg hr, wrap_eq _ hin]
  · rw [if_neg ha] at hnw
    obtain ⟨h1, h2, h3⟩ := hnw
    rw [if_neg ha, if_neg ha, wrap_eq _ h1, wrap_eq _ h2, wrap_eq _ h3]
    by_cases hr : (r.Max.Y - padding) - (r.Min.Y + padding) ≤ 0
    · rw [if_pos hr, if_pos hr]
    · have hd := offsetDraw_range g ((r.Max.Y - padding) - (r.Min.Y + padding)) (by omega)
      have hin : IsInt64 (offsetDraw g ((r.Max.Y - padding) - (r.Min.Y + padding))
          + (r.Min.Y + padding)) := by
        unfold IsInt64 at h1 h2 ⊢
        omega
      rw [if_neg hr, if_neg hr, wrap_eq _ hin]

/-- The shape of a successful `splitRectangle` when nothing wraps: the axis, the
drawn offset with its range, and the two calls of `Rect` that build the
children. -/
theorem splitRectangle_ok_form (r : Rectangle) (padding : Int) (g g' : Rand)
    (res : SplitResult) (hnw : NoWrap r padding g)
    (h : splitRectangle r padding g = some (res, g')) (hok : res.err = none) :
    (axisDraw g = 0 ∧ ∃ offset : Int,
        r.Min.X + padding ≤ offset ∧ offset < r.Max.X - padding ∧
        res.s1 = Rect r.Min.X r.Min.Y offset r.Max.Y ∧
        res.s2 = Rect offset r.Min.Y r.Max.X r.Max.Y) ∨
      (axisDraw g ≠ 0 ∧ ∃ offset : Int,
        r.Min.Y + padding ≤ offset ∧ offset < r.Max.Y - padding ∧
        res.s1 = Rect r.Min.X r.Min.Y r.Max.X offset ∧
        res.s2 = Rect r.Min.X offset r.Max.X r.Max.Y) := by
  rw [splitRectangle_exact r padding g hnw] at h
  split_ifs at h with ha hr hr
  · simp only [Option.some.injEq, Prod.mk.injEq] at h
    rw [← h.1] at hok
    simp at hok
  · simp only [Option.some.injEq, Prod.mk.injEq] at h
    have hd := offsetDraw_range g ((r.Max.X - padding) - (r.Min.X + padding)) (by omega)
    refine Or.inl ⟨ha, offsetDraw g ((r.Max.X - padding) - (r.Min.X + padding))
      + (r.Min.X + padding), ?_, ?_, ?_, ?_⟩
    · exact Int.le_add_of_nonneg_left hd.1
    · have := hd.2
      omega
    · rw [← h.1]
    · rw [← h.1]
  · simp only [Option.some.injEq, Prod.mk.injEq] at h
    rw [← h.1] at hok
    simp at hok
  · simp only [Option.some.injEq, Prod.mk.injEq] at h
    have hd := offsetDraw_range g ((r.Max.Y - padding) - (r.Min.Y + padding)) (by omega)
    refine Or.inr ⟨ha, offsetDraw g ((r.Max.Y - padding) - (r.Min.Y + padding))
      + (r.Min.Y + padding), ?_, ?_, ?_, ?_⟩
    · exact Int.le_add_of_nonneg_left hd.1
    · have := hd.2
      omega
    · rw [← h.1]
    · rw [← h.1]

/-- C5 fails as stated: for the well-formed (0,0)-(10,10) with padding
2^63 - 1 and all raw draws 0, `min` is 2^63 - 1, `max` is 11 - 2^63 and their
difference wraps to 12, so the split succeeds, with the children
(0,0)-(2^63-1,10) and (10,0)-(2^63-1,10): they overlap, and the point (10,0)
of the first is outside the rectangle. -/
theorem splitRectangle_wrapped_children_overlap :
    Rectangle.WellFormed ⟨⟨0, 0⟩, ⟨10, 10⟩⟩ ∧ (0 : Int) ≤ 9223372036854775807 ∧
      splitRectangle ⟨⟨0, 0⟩, ⟨10, 10⟩⟩ 9223372036854775807 ⟨fun _ => 0, 0⟩
        = some (⟨⟨⟨0, 0⟩, ⟨9223372036854775807, 10⟩⟩, ⟨⟨10, 0⟩, ⟨9223372036854775807, 10⟩⟩,
            none⟩, ⟨fun _ => 0, 2⟩) ∧
      Rectangle.Overlaps ⟨⟨0, 0⟩, ⟨9223372036854775807, 10⟩⟩
        ⟨⟨10, 0⟩, ⟨9223372036854775807, 10⟩⟩ = true ∧
      Point.In ⟨10, 0⟩ ⟨⟨0, 0⟩, ⟨9223372036854775807, 10⟩⟩ = true ∧
      Point.In ⟨10, 0⟩ ⟨⟨0, 0⟩, ⟨10, 10⟩⟩ = false :=
  ⟨⟨by decide, by decide⟩, by decide, rfl, by decide, by decide, by decide⟩

/-- C5, amended: a successful `splitRectangle` on a well-formed rectangle with
non-negative padding, when `r.min + padding`, `r.max - padding` and their
difference on the drawn axis do not overflow the 64-bit `int`, cuts the
rectangle in two along that axis: the children do not overlap, keep the extent
of `r` on the other axis, meet at the cut offset, and every point of `r` is in
exactly one of them while no other point is in either. -/
theorem splitRectangle_partition (r : Rectangle) (padding : Int) (g g' : Rand)
    (res : SplitResult) (hwf : r.WellFormed) (hp : 0 ≤ padding)
    (hnw : NoWrap r padding g)
    (h : splitRectangle r padding g = some (res, g')) (hok : res.err = none) :
    res.s1.Overlaps res.s2 = false ∧
      (∃ offset : Int,
        (axisDraw g = 0 ∧ r.Min.X ≤ offset ∧ offset ≤ r.Max.X ∧
          res.s1 = ⟨r.Min, ⟨offset, r.Max.Y⟩⟩ ∧ res.s2 = ⟨⟨offset, r.Min.Y⟩, r.Max⟩) ∨
        (axisDraw g ≠ 0 ∧ r.Min.Y ≤ offset ∧ offset ≤ r.Max.Y ∧
          res.s1 = ⟨r.Min, ⟨r.Max.X, offset⟩⟩ ∧ res.s2 = ⟨⟨r.Min.X, offset⟩, r.Max⟩)) ∧
      (∀ p : Point, p.In r = true ↔ (p.In res.s1 = true ∨ p.In res.s2 = true)) ∧
      (∀ p : Point, ¬ (p.In res.s1 = true ∧ p.In res.s2 = true)) := by
  obtain ⟨hwx, hwy⟩ := hwf
  rcases splitRectangle_ok_form r padding g g' res hnw h hok with
    ⟨ha, o, h1, h2, hs1, hs2⟩ | ⟨ha, o, h1, h2, hs1, hs2⟩
  · rw [Rect_of_le _ _ _ _ (by omega) hwy] at hs1
    rw [Rect_of_le _ _ _ _ (by omega) hwy] at hs2
    refine ⟨?_, ⟨o, Or.inl ⟨ha, by omega, by omega, hs1, hs2⟩⟩, ?_, ?_⟩
    · rw [hs1, hs2]
      by_contra c
      have c2 := (Rectangle.Overlaps_iff _ _).1 (by simpa using c)
      simp only at c2
      omega
    · intro p
      rw [hs1, hs2, Point.In_bounds_iff, Point.In_bounds_iff, Point.In_bounds_iff]
      simp only
      omega
    · intro p
      rw [hs1, hs2, Point.In_bounds_iff, Point.In_bounds_iff]
      simp only
      omega
  · rw [Rect_of_le _ _ _ _ hwx (by omega)] at hs1
    rw [Rect_of_le _ _ _ _ hwx (by omega)] at hs2
    refine ⟨?_, ⟨o, Or.inr ⟨ha, by omega, by omega, hs1, hs2⟩⟩, ?_, ?_⟩
    · rw [hs1, hs2]
      by_contra c
      have c2 := (Rectangle.Overlaps_iff _ _).1 (by simpa using c)
      simp only at c2
      omega
    · intro p
      rw [hs1, hs2, Point.In_bounds_iff, Point.In_bounds_iff, Point.In_bounds_iff]
      simp only
      omega
    · intro p
      rw [hs1, hs2, Point.In_bounds_iff, Point.In_bounds_iff]
      simp only
      omega

/-- C5 amended, at (0,0)-(400,400) with padding 100 and all raw draws 0 (vertical cut at
offset 100): the children (0,0)-(100,400) and (100,0)-(400,400) do not overlap. -/
theorem splitRectangle_partition_witness :
    splitRectangle ⟨⟨0, 0⟩, ⟨400, 400⟩⟩ 100 ⟨fun _ => 0, 0⟩
        = some (⟨⟨⟨0, 0⟩, ⟨100, 400⟩⟩, ⟨⟨100, 0⟩, ⟨400, 400⟩⟩, none⟩, ⟨fun _ => 0, 2⟩) ∧
      Rectangle.Overlaps ⟨⟨0, 0⟩, ⟨100, 400⟩⟩ ⟨⟨100, 0⟩, ⟨400, 400⟩⟩ = false :=
  ⟨rfl, (splitRectangle_partition ⟨⟨0, 0⟩, ⟨400, 400⟩⟩ 100 ⟨fun _ => 0, 0⟩ ⟨fun _ => 0, 2⟩
    ⟨⟨⟨0, 0⟩, ⟨100, 400⟩⟩, ⟨⟨100, 0⟩, ⟨400, 400⟩⟩, none⟩
    ⟨by decide, by decide⟩ (by decide) (by unfold NoWrap NoOverflow IsInt64; decide)
    rfl rfl).1⟩

/-- C6 fails as stated: (0,0)-(300,100) with padding 100 is wide enough
(300 ≥ 201), yet when the axis draw is 1 the cut is horizontal, the range on Y
is empty and `splitRectangle` returns the error. -/
theorem splitRectangle_fails_on_short_axis :
    Rectangle.WellFormed ⟨⟨0, 0⟩, ⟨300, 100⟩⟩ ∧
      2 * 100 + 1 ≤ Rectangle.Dx ⟨⟨0, 0⟩, ⟨300, 100⟩⟩ ∧
      splitRectangle ⟨⟨0, 0⟩, ⟨300, 100⟩⟩ 100 ⟨fun _ => 1, 0⟩
        = some (⟨⟨⟨0, 0⟩, ⟨300, 100⟩⟩, ⟨⟨0, 0⟩, ⟨300, 100⟩⟩, some errNotEnoughRoom⟩,
            ⟨fun _ => 1, 1⟩) :=
  ⟨⟨by decide, by decide⟩, by decide, rfl⟩

/-- C6, amended: when the extent of `r` along the drawn axis (the width for a
vertical cut, axis draw 0; the height otherwise) is at least `2*padding + 1`,
and `r.min + padding`, `r.max - padding` and their difference on that axis do
not overflow the 64-bit `int`, `splitRectangle` returns a nil error, whatever
the offset draw. -/
theorem splitRectangle_succeeds (r : Rectangle) (padding : Int) (g : Rand)
    (hroom : if axisDraw g = 0 then 2 * padding + 1 ≤ r.Dx else 2 * padding + 1 ≤ r.Dy)
    (hnw : NoWrap r padding g) :
    ∃ res g', splitRectangle r padding g = some (res, g') ∧ res.err = none := by
  rw [splitRectangle_exact r padding g hnw]
  unfold Rectangle.Dx Rectangle.Dy at hroom
  by_cases ha : axisDraw g = 0
  · rw [if_pos ha] at hroom
    rw [if_pos ha, if_neg (by omega)]
    exact ⟨_, _, rfl, rfl⟩
  · rw [if_neg ha] at hroom
    rw [if_neg ha, if_neg (by omega)]
    exact ⟨_, _, rfl, rfl⟩

/-- C6 amended, at (0,0)-(300,100) with padding 100 and axis draw 0: the width
300 > 200 gives room and the split succeeds. -/
theorem splitRectangle_succeeds_witness :
    ∃ res g', splitRectangle ⟨⟨0, 0⟩, ⟨300, 100⟩⟩ 100 ⟨fun _ => 0, 0⟩ = some (res, g') ∧
      res.err = none :=
  splitRectangle_succeeds ⟨⟨0, 0⟩, ⟨300, 100⟩⟩ 100 ⟨fun _ => 0, 0⟩ (by decide)
    (by unfold NoWrap NoOverflow IsInt64; decide)

/-- C7 fails as stated: for (0,0)-(10,10) with padding 2^63 - 1 both extents
are below `2*padding` and the exact range length `(max - padding) - (min +
padding)` is negative on both axes, yet the difference wraps to 12 and
`splitRectangle` succeeds, here with the axis draw 1. -/
theorem splitRectangle_wrapped_no_error :
    Rectangle.Dx ⟨⟨0, 0⟩, ⟨10, 10⟩⟩ < 2 * 9223372036854775807 ∧
      Rectangle.Dy ⟨⟨0, 0⟩, ⟨10, 10⟩⟩ < 2 * 9223372036854775807 ∧
      ((10 : Int) - 9223372036854775807) - (0 + 9223372036854775807) ≤ 0 ∧
      ∃ res g', splitRectangle ⟨⟨0, 0⟩, ⟨10, 10⟩⟩ 9223372036854775807 ⟨fun _ => 1, 0⟩
          = some (res, g') ∧ res.err = none :=
  ⟨by decide, by decide, by decide, _, _, rfl, rfl⟩

/-- C7, amended: when `r.min + padding`, `r.max - padding` and their difference
on the drawn axis do not overflow the 64-bit `int`, `splitRectangle` returns,
and it returns the error exactly when the offset range on the drawn axis has
length at most 0; so a rectangle with width and height both below `2*padding`
fails whatever the axis draw. -/
theorem splitRectangle_error_iff (r : Rectangle) (padding : Int) (g : Rand)
    (hnw : NoWrap r padding g) :
    ∃ res g', splitRectangle r padding g = some (res, g') ∧
      (res.err = some errNotEnoughRoom ↔
        (if axisDraw g = 0 then (r.Max.X - padding) - (r.Min.X + padding) ≤ 0
          else (r.Max.Y - padding) - (r.Min.Y + padding) ≤ 0)) ∧
      (r.Dx < 2 * padding → r.Dy < 2 * padding → res.err = some errNotEnoughRoom) := by
  rw [splitRectangle_exact r padding g hnw]
  unfold Rectangle.Dx Rectangle.Dy
  by_cases ha : axisDraw g = 0
  · by_cases hr : (r.Max.X - padding) - (r.Min.X + padding) ≤ 0
    · rw [if_pos ha, if_pos hr, if_pos ha]
      exact ⟨_, _, rfl, ⟨fun _ => hr, fun _ => rfl⟩, fun _ _ => rfl⟩
    · rw [if_pos ha, if_neg hr, if_pos ha]
      refine ⟨_, _, rfl, ⟨fun c => ?_, fun c => absurd c hr⟩, fun c _ => ?_⟩
      · simp at c
      · omega
  · by_cases hr : (r.Max.Y - padding) - (r.Min.Y + padding) ≤ 0
    · rw [if_neg ha, if_pos hr, if_neg ha]
      exact ⟨_, _, rfl, ⟨fun _ => hr, fun _ => rfl⟩, fun _ _ => rfl⟩
    · rw [if_neg ha, if_neg hr, if_neg ha]
      refine ⟨_, _, rfl, ⟨fun c => ?_, fun c => absurd c hr⟩, fun _ c => ?_⟩
      · simp at c
      · omega

/-- C7 amended, at (0,0)-(150,150) with padding 100: nothing wraps, both extents
are below 200 and the result carries the error. -/
theorem splitRectangle_error_iff_witness :
    ∃ res g', splitRectangle ⟨⟨0, 0⟩, ⟨150, 150⟩⟩ 100 ⟨fun _ => 1, 0⟩ = some (res, g') ∧
      res.err = some errNotEnoughRoom := by
  obtain ⟨res, g', h, _, h3⟩ :=
    splitRectangle_error_iff ⟨⟨0, 0⟩, ⟨150, 150⟩⟩ 100 ⟨fun _ => 1, 0⟩
      (by unfold NoWrap NoOverflow IsInt64; decide)
  exact ⟨res, g', h, h3 (by decide) (by decide)⟩

/-- C8 fails as stated: for the well-formed (0,0)-(10,10) with padding
2^63 - 1 and all raw draws 0 the split succeeds with the cut offset 2^63 - 1,
above `r.max - padding = 11 - 2^63`, and the second child (10,0)-(2^63-1,10)
is narrower than the padding. -/
theorem splitRectangle_wrapped_offset_outside :
    splitRectangle ⟨⟨0, 0⟩, ⟨10, 10⟩⟩ 9223372036854775807 ⟨fun _ => 0, 0⟩
        = some (⟨Rect 0 0 9223372036854775807 10, Rect 9223372036854775807 0 10 10, none⟩,
            ⟨fun _ => 0, 2⟩) ∧
      ¬ ((9223372036854775807 : Int) ≤ 10 - 9223372036854775807) ∧
      Rectangle.Dx (Rect 9223372036854775807 0 10 10) < 9223372036854775807 :=
  ⟨rfl, by decide, by decide⟩

/-- C8, amended: on a successful `splitRectangle` of a well-formed rectangle
with non-negative padding, when `r.min + padding`, `r.max - padding` and their
difference on the drawn axis do not overflow the 64-bit `int`, the cut offset
lies between `r.min + padding` and `r.max - padding` on the drawn axis, and
each child has extent at least `padding` on that axis. -/
theorem splitRectangle_offset_range (r : Rectangle) (padding : Int) (g g' : Rand)
    (res : SplitResult) (hwf : r.WellFormed) (hp : 0 ≤ padding)
    (hnw : NoWrap r padding g)
    (h : splitRectangle r padding g = some (res, g')) (hok : res.err = none) :
    (axisDraw g = 0 ∧ ∃ offset : Int,
        res.s1 = ⟨r.Min, ⟨offset, r.Max.Y⟩⟩ ∧ res.s2 = ⟨⟨offset, r.Min.Y⟩, r.Max⟩ ∧
        r.Min.X + padding ≤ offset ∧ offset ≤ r.Max.X - padding ∧
        padding ≤ res.s1.Dx ∧ padding ≤ res.s2.Dx) ∨
      (axisDraw g ≠ 0 ∧ ∃ offset : Int,
        res.s1 = ⟨r.Min, ⟨r.Max.X, offset⟩⟩ ∧ res.s2 = ⟨⟨r.Min.X, offset⟩, r.Max⟩ ∧
        r.Min.Y + padding ≤ offset ∧ offset ≤ r.Max.Y - padding ∧
        padding ≤ res.s1.Dy ∧ padding ≤ res.s2.Dy) := by
  obtain ⟨hwx, hwy⟩ := hwf
  rcases splitRectangle_ok_form r padding g g' res hnw h hok with
    ⟨ha, o, h1, h2, hs1, hs2⟩ | ⟨ha, o, h1, h2, hs1, hs2⟩
  · rw [Rect_of_le _ _ _ _ (by omega) hwy] at hs1
    rw [Rect_of_le _ _ _ _ (by omega) hwy] at hs2
    refine Or.inl ⟨ha, o, hs1, hs2, h1, by omega, ?_, ?_⟩
    · rw [hs1]; unfold Rectangle.Dx; simp only; omega
    · rw [hs2]; unfold Rectangle.Dx; simp only; omega
  · rw [Rect_of_le _ _ _ _ hwx (by omega)] at hs1
    rw [Rect_of_le _ _ _ _ hwx (by omega)] at hs2
    refine Or.inr ⟨ha, o, hs1, hs2, h1, by omega, ?_, ?_⟩
    · rw [hs1]; unfold Rectangle.Dy; simp only; omega
    · rw [hs2]; unfold Rectangle.Dy; simp only; omega

/-- C8 amended, at (0,0)-(400,400) with padding 100, axis draw 0 and raw offset draw 250
(offset 250 % 200 + 100 = 150): both children are at least 100 wide. -/
theorem splitRectangle_offset_range_witness :
    splitRectangle ⟨⟨0, 0⟩, ⟨400, 400⟩⟩ 100 ⟨fun i => if i = 0 then 0 else 250, 0⟩
        = some (⟨⟨⟨0, 0⟩, ⟨150, 400⟩⟩, ⟨⟨150, 0⟩, ⟨400, 400⟩⟩, none⟩,
            ⟨fun i => if i = 0 then 0 else 250, 2⟩) ∧
      ((axisDraw ⟨fun i => if i = 0 then 0 else 250, 0⟩ = 0 ∧ ∃ offset : Int,
        (⟨⟨0, 0⟩, ⟨150, 400⟩⟩ : Rectangle) = ⟨⟨0, 0⟩, ⟨offset, 400⟩⟩ ∧
        (⟨⟨150, 0⟩, ⟨400, 400⟩⟩ : Rectangle) = ⟨⟨offset, 0⟩, ⟨400, 400⟩⟩ ∧
        0 + 100 ≤ offset ∧ offset ≤ 400 - 100 ∧
        100 ≤ Rectangle.Dx ⟨⟨0, 0⟩, ⟨150, 400⟩⟩ ∧
        100 ≤ Rectangle.Dx ⟨⟨150, 0⟩, ⟨400, 400⟩⟩) ∨
      (axisDraw ⟨fun i => if i = 0 then 0 else 250, 0⟩ ≠ 0 ∧ ∃ offset : Int,
        (⟨⟨0, 0⟩, ⟨150, 400⟩⟩ : Rectangle) = ⟨⟨0, 0⟩, ⟨400, offset⟩⟩ ∧
        (⟨⟨150, 0⟩, ⟨400, 400⟩⟩ : Rectangle) = ⟨⟨0, offset⟩, ⟨400, 400⟩⟩ ∧
        0 + 100 ≤ offset ∧ offset ≤ 400 - 100 ∧
        100 ≤ Rectangle.Dy ⟨⟨0, 0⟩, ⟨150, 400⟩⟩ ∧
        100 ≤ Rectangle.Dy ⟨⟨150, 0⟩, ⟨400, 400⟩⟩)) :=
  ⟨rfl, splitRectangle_offset_range ⟨⟨0, 0⟩, ⟨400, 400⟩⟩ 100
    ⟨fun i => if i = 0 then 0 else 250, 0⟩ ⟨fun i => if i = 0 then 0 else 250, 2⟩
    ⟨⟨⟨0, 0⟩, ⟨150, 400⟩⟩, ⟨⟨150, 0⟩, ⟨400, 400⟩⟩, none⟩
    ⟨by decide, by decide⟩ (by decide) (by unfold NoWrap NoOverflow IsInt64; decide)
    rfl rfl⟩

/-! ## The first phase of `findIntersections`: closure under intersection -/

theorem Rectangle.Intersect_comm (r s : Rectangle) : r.Intersect s = s.Intersect r := by
  have hm : r.meet s = s.meet r := by
    rw [Rectangle.eq_iff]
    simp only [Rectangle.meet]
    omega
  rw [Rectangle.Intersect_eq, Rectangle.Intersect_eq, hm]

theorem Rectangle.Intersect_self (r : Rectangle) (h : r.Overlaps r = true) :
    r.Intersect r = r := by
  rw [Rectangle.Intersect_of_Overlaps r r h, Rectangle.eq_iff]
  simp only [Rectangle.meet]
  omega

theorem Rectangle.Overlaps_self (r s : Rectangle) (h : r.Overlaps s = true) :
    r.Overlaps r = true := by
  rw [Rectangle.Overlaps_iff] at h ⊢
  omega

theorem Rectangle.Overlaps_ZR (r : Rectangle) : r.Overlaps ZR = false := by
  by_contra c
  have c2 := (Rectangle.Overlaps_iff r ZR).1 (by simpa using c)
  simp [ZR] at c2

/-- When `q` overlaps `r.Intersect s`, all the pairs overlap and the triple
intersection can be taken in the other order. -/
theorem Rectangle.Intersect_left_comm (q r s : Rectangle)
    (h : q.Overlaps (r.Intersect s) = true) :
    r.Overlaps s = true ∧ q.Overlaps s = true ∧ r.Overlaps (q.Intersect s) = true ∧
      q.Intersect (r.Intersect s) = r.Intersect (q.Intersect s) := by
  have hrs : r.Overlaps s = true := by
    by_contra c
    have c2 : r.Overlaps s = false := by simpa using c
    rw [Rectangle.Intersect_of_not_Overlaps r s c2, Rectangle.Overlaps_ZR] at h
    exact Bool.false_ne_true h
  rw [Rectangle.Intersect_of_Overlaps r s hrs] at h
  have h1 := (Rectangle.Overlaps_iff _ _).1 h
  have h2 := (Rectangle.Overlaps_iff _ _).1 hrs
  simp only [Rectangle.meet] at h1
  have hqs : q.Overlaps s = true := by
    rw [Rectangle.Overlaps_iff]
    omega
  have hr : r.Overlaps (q.meet s) = true := by
    rw [Rectangle.Overlaps_iff]
    simp only [Rectangle.meet]
    omega
  refine ⟨hrs, hqs, ?_, ?_⟩
  · rw [Rectangle.Intersect_of_Overlaps q s hqs]
    exact hr
  · rw [Rectangle.Intersect_of_Overlaps r s hrs, Rectangle.Intersect_of_Overlaps q s hqs,
      Rectangle.Intersect_of_Overlaps _ _ h, Rectangle.Intersect_of_Overlaps _ _ hr,
      Rectangle.eq_iff]
    simp only [Rectangle.meet]
    omega

/-- Intersecting `r.Intersect s` with `r` again changes nothing. -/
theorem Rectangle.Intersect_absorb (r s : Rectangle) (h : r.Overlaps s = true) :
    r.Overlaps (r.Intersect s) = true ∧ r.Intersect (r.Intersect s) = r.Intersect s := by
  have h2 := (Rectangle.Overlaps_iff _ _).1 h
  have hr : r.Overlaps (r.meet s) = true := by
    rw [Rectangle.Overlaps_iff]
    simp only [Rectangle.meet]
    omega
  rw [Rectangle.Intersect_of_Overlaps r s h]
  refine ⟨hr, ?_⟩
  rw [Rectangle.Intersect_of_Overlaps _ _ hr, Rectangle.eq_iff]
  simp only [Rectangle.meet]
  omega

/-- What one run of the inner loop does: it appends to the list only
intersections of `r` with overlapping elements of the snapshot, keeps the seen
keys inside the list, and leaves every such intersection in the list. -/
theorem intersectInner_spec (r : Rectangle) :
    ∀ (l rs seen : List Rectangle), (∀ x ∈ seen, x ∈ rs) →
      ∃ new : List Rectangle,
        (intersectInner r l (rs, seen)).1 = rs ++ new ∧
        (∀ x ∈ new, ∃ s ∈ l, r.Overlaps s = true ∧ x = r.Intersect s) ∧
        (∀ x ∈ (intersectInner r l (rs, seen)).2, x ∈ rs ++ new) ∧
        (∀ s ∈ l, r.Overlaps s = true → r.Intersect s ∈ rs ++ new) := by
  intro l
  induction l with
  | nil =>
    intro rs seen hseen
    refine ⟨[], by simp [intersectInner], by simp, ?_, by simp⟩
    intro x hx
    simpa [intersectInner] using hseen x hx
  | cons s rest ih =>
    intro rs seen hseen
    by_cases hadd : (r.Intersect s).Empty = false ∧ r.Intersect s ∉ seen
    · rw [intersectInner_cons_append r s rest rs seen hadd.1 hadd.2]
      have hseen2 : ∀ x ∈ r.Intersect s :: seen, x ∈ rs ++ [r.Intersect s] := by
        intro x hx
        rcases List.mem_cons.1 hx with hx | hx
        · simp [hx]
        · exact List.mem_append_left _ (hseen x hx)
      obtain ⟨new, h1, h2, h3, h4⟩ := ih (rs ++ [r.Intersect s]) (r.Intersect s :: seen) hseen2
      have hov : r.Overlaps s = true := (Rectangle.Intersect_Empty_iff r s).1 hadd.1
      refine ⟨r.Intersect s :: new, ?_, ?_, ?_, ?_⟩
      · rw [h1]; simp
      · intro x hx
        rcases List.mem_cons.1 hx with hx | hx
        · exact ⟨s, List.mem_cons_self _ _, hov, hx⟩
        · obtain ⟨t, ht, ht2, ht3⟩ := h2 x hx
          exact ⟨t, List.mem_cons_of_mem _ ht, ht2, ht3⟩
      · intro x hx
        have := h3 x hx
        simpa using this
      · intro t ht hot
        rcases List.mem_cons.1 ht with ht | ht
        · subst ht; simp
        · have := h4 t ht hot
          simpa using this
    · have hskip : (r.Intersect s).Empty = true ∨ r.Intersect s ∈ seen := by
        by_cases he : (r.Intersect s).Empty = true
        · exact Or.inl he
        · right
          by_contra c
          exact hadd ⟨by simpa using he, c⟩
      rw [intersectInner_cons_skip r s rest rs seen hskip]
      obtain ⟨new, h1, h2, h3, h4⟩ := ih rs seen hseen
      refine ⟨new, h1, ?_, h3, ?_⟩
      · intro x hx
        obtain ⟨t, ht, ht2, ht3⟩ := h2 x hx
        exact ⟨t, List.mem_cons_of_mem _ ht, ht2, ht3⟩
      · intro t ht hot
        rcases List.mem_cons.1 ht with ht | ht
        · subst ht
          rcases hskip with he | hm
          · have := (Rectangle.Intersect_Empty_iff r t).2 hot
            rw [he] at this
            exact absurd this (by decide)
          · exact List.mem_append_left _ (hseen _ hm)
        · exact h4 t ht hot

theorem drop_length_succ_append (done todo app : List Rectangle) (r : Rectangle) :
    ((done ++ r :: todo) ++ app).drop (done.length + 1) = todo ++ app := by
  induction done with
  | nil => simp
  | cons d done ih => simp

/-- One step of the outer loop keeps the list closed under intersection with
the elements already visited, the element just visited included. -/
theorem closedUnder_step (done todo app new : List Rectangle) (r : Rectangle)
    (hJ : ClosedUnder done ((done ++ r :: todo) ++ app))
    (h2 : ∀ x ∈ new, ∃ s ∈ todo ++ app, r.Overlaps s = true ∧ x = r.Intersect s)
    (h4 : ∀ s ∈ todo ++ app, r.Overlaps s = true →
      r.Intersect s ∈ ((done ++ r :: todo) ++ app) ++ new) :
    ClosedUnder (done ++ [r]) (((done ++ r :: todo) ++ app) ++ new) := by
  have hsub : ∀ s ∈ todo ++ app, s ∈ (done ++ r :: todo) ++ app := by
    intro s hs
    rcases List.mem_append.1 hs with hs | hs
    · simp [hs]
    · simp [hs]
  have hr : r ∈ (done ++ r :: todo) ++ app := by simp
  have F1 : ∀ a ∈ ((done ++ r :: todo) ++ app) ++ new, r.Overlaps a = true →
      r.Intersect a ∈ ((done ++ r :: todo) ++ app) ++ new := by
    intro a ha hov
    rcases List.mem_append.1 ha with ha | ha
    · rcases List.mem_append.1 ha with ha | ha
      · rcases List.mem_append.1 ha with ha | ha
        · rw [Rectangle.Intersect_comm]
          rw [Rectangle.Overlaps_comm] at hov
          exact List.mem_append_left _ (hJ a ha r hr hov)
        · rcases List.mem_cons.1 ha with ha | ha
          · subst ha
            rw [Rectangle.Intersect_self a hov]
            exact List.mem_append_left _ hr
          · exact h4 a (List.mem_append_left _ ha) hov
      · exact h4 a (List.mem_append_right _ ha) hov
    · obtain ⟨s, _, hs2, hs3⟩ := h2 a ha
      subst hs3
      rw [(Rectangle.Intersect_absorb r s hs2).2]
      exact List.mem_append_right _ ha
  intro q hq a ha hov
  rcases List.mem_append.1 hq with hq | hq
  · rcases List.mem_append.1 ha with ha | ha
    · exact List.mem_append_left _ (hJ q hq a ha hov)
    · obtain ⟨s, hs1, _, hs3⟩ := h2 a ha
      subst hs3
      obtain ⟨_, hqs, hrq, heq⟩ := Rectangle.Intersect_left_comm q r s hov
      rw [heq]
      exact F1 _ (List.mem_append_left _ (hJ q hq s (hsub s hs1) hqs)) hrq
  · have hqr : q = r := by simpa using hq
    subst hqr
    exact F1 a ha hov

/-- The outer loop of the first phase: started on `orig ++ app` with the
elements of `done` visited, it ends on `orig ++ app2` where every appended
element is generated from `orig` and the list is closed under intersection
with the elements of `orig`. -/
theorem intersectOuter_spec (orig : List Rectangle) :
    ∀ (todo done app seen : List Rectangle), orig = done ++ todo →
      (∀ x ∈ seen, x ∈ orig ++ app) → (∀ a ∈ app, Generated orig a) →
      ClosedUnder done (orig ++ app) →
      ∃ app2 : List Rectangle,
        (intersectOuter todo done.length (orig ++ app, seen)).1 = orig ++ app2 ∧
        (∀ a ∈ app2, Generated orig a) ∧ ClosedUnder orig (orig ++ app2) := by
  intro todo
  induction todo with
  | nil =>
    intro done app seen horig _ hgen hJ
    have hd : done = orig := by rw [horig]; simp
    rw [hd] at hJ
    exact ⟨app, rfl, hgen, hJ⟩
  | cons r todo ih =>
    intro done app seen horig hseen hgen hJ
    have hdrop : (orig ++ app).drop (done.length + 1) = todo ++ app := by
      rw [horig]
      exact drop_length_succ_append done todo app r
    obtain ⟨new, h1, h2, h3, h4⟩ := intersectInner_spec r (todo ++ app) (orig ++ app) seen hseen
    have hpair : intersectInner r (todo ++ app) (orig ++ app, seen)
        = (orig ++ (app ++ new), (intersectInner r (todo ++ app) (orig ++ app, seen)).2) := by
      rw [← List.append_assoc, ← h1]
    have hrmem : r ∈ orig := by rw [horig]; simp
    have hgen2 : ∀ a ∈ app ++ new, Generated orig a := by
      intro a ha
      rcases List.mem_append.1 ha with ha | ha
      · exact hgen a ha
      · obtain ⟨s, hs1, hs2, hs3⟩ := h2 a ha
        subst hs3
        refine Generated.step r s hrmem ?_ hs2
        rcases List.mem_append.1 hs1 with hs1 | hs1
        · exact Generated.base s (by rw [horig]; simp [hs1])
        · exact hgen s hs1
    have hJ2 : ClosedUnder (done ++ [r]) (orig ++ (app ++ new)) := by
      rw [← List.append_assoc, horig]
      rw [horig] at hJ h4
      exact closedUnder_step done todo app new r hJ h2 h4
    have horig2 : orig = (done ++ [r]) ++ todo := by rw [horig]; simp
    have hseen2 : ∀ x ∈ (intersectInner r (todo ++ app) (orig ++ app, seen)).2,
        x ∈ orig ++ (app ++ new) := by
      intro x hx
      rw [← List.append_assoc]
      exact h3 x hx
    obtain ⟨app2, k1, k2, k3⟩ := ih (done ++ [r]) (app ++ new) _ horig2 hseen2 hgen2 hJ2
    refine ⟨app2, ?_, k2, k3⟩
    rw [intersectOuter, hdrop, hpair]
    have hlen : (done ++ [r]).length = done.length + 1 := by simp
    rw [← hlen]
    exact k1

/-- The enlarged list starts with the input, every further element is generated
from the input, and the list contains the intersection of each input rectangle
with each of its elements that it overlaps. -/
theorem enlarged_spec (rs : List Rectangle) :
    ∃ app : List Rectangle, enlarged rs = rs ++ app ∧
      (∀ a ∈ enlarged rs, Generated rs a) ∧ ClosedUnder rs (enlarged rs) := by
  have h := intersectOuter_spec rs rs [] [] [] (by simp) (by simp) (by simp)
    (by intro q hq; simp at hq)
  obtain ⟨app, h1, h2, h3⟩ := h
  have he : enlarged rs = rs ++ app := by
    unfold enlarged
    simpa using h1
  refine ⟨app, he, ?_, ?_⟩
  · intro a ha
    rw [he] at ha
    rcases List.mem_append.1 ha with ha | ha
    · exact Generated.base a ha
    · exact h2 a ha
  · rw [he]
    exact h3

/-! ## Coverage: the second phase keeps a rectangle around every separated point -/

theorem Point.In_meet (p : Point) (r s : Rectangle) :
    p.In (r.meet s) = true ↔ p.In r = true ∧ p.In s = true := by
  rw [Point.In_bounds_iff, Point.In_bounds_iff, Point.In_bounds_iff]
  simp only [Rectangle.meet]
  omega

theorem Rectangle.Overlaps_of_common_point (p : Point) (r s : Rectangle)
    (hr : p.In r = true) (hs : p.In s = true) : r.Overlaps s = true := by
  rw [Point.In_bounds_iff] at hr hs
  rw [Rectangle.Overlaps_iff]
  omega

/-- Among the elements of a list that contain the point `p`, one has the least
half-perimeter. -/
theorem exists_least_containing (E : List Rectangle) (p : Point) (x0 : Rectangle)
    (h0 : x0 ∈ E) (hp0 : p.In x0 = true) :
    ∃ m ∈ E, p.In m = true ∧
      ∀ x ∈ E, p.In x = true → (m.Dx + m.Dy).toNat ≤ (x.Dx + x.Dy).toNat := by
  have hne : (E.filter (fun x => p.In x)).toFinset.Nonempty :=
    ⟨x0, by simp [h0, hp0]⟩
  obtain ⟨m, hm, hmin⟩ := Finset.exists_min_image _
    (fun x : Rectangle => (x.Dx + x.Dy).toNat) hne
  simp only [List.mem_toFinset, List.mem_filter] at hm hmin
  exact ⟨m, hm.1, hm.2, fun x hx hpx => hmin x ⟨hx, hpx⟩⟩

/-- If every rectangle of `U` that misses the point `p` is separated from `p`
by a rectangle of `U` that contains `p` and does not overlap it, and some
rectangle of `U` contains `p`, then the output of `findIntersections` contains a
rectangle around `p`. -/
theorem findIntersections_covers (U : List Rectangle) (p : Point) (seed : Rectangle)
    (hseed : seed ∈ U) (hp : p.In seed = true)
    (hsep : ∀ c ∈ U, p.In c = false → ∃ d ∈ U, p.In d = true ∧ d.Overlaps c = false) :
    ∃ r ∈ findIntersections U, p.In r = true := by
  obtain ⟨app, he, hgen, hJ⟩ := enlarged_spec U
  have hsub : ∀ c ∈ U, c ∈ enlarged U := by
    intro c hc
    rw [he]
    exact List.mem_append_left _ hc
  obtain ⟨m, hmE, hpm, hmin⟩ := exists_least_containing (enlarged U) p seed (hsub seed hseed) hp
  have hA : ∀ c ∈ U, p.In c = true → m.In c = true := by
    intro c hc hpc
    have hov : c.Overlaps m = true := Rectangle.Overlaps_of_common_point p c m hpc hpm
    have hmem := hJ c hc m hmE hov
    rw [Rectangle.Intersect_of_Overlaps c m hov] at hmem
    have hle := hmin _ hmem ((Point.In_meet p c m).2 ⟨hpc, hpm⟩)
    have h1 := (Rectangle.Overlaps_iff _ _).1 hov
    rw [Rectangle.In_iff]
    simp only [Rectangle.meet, Rectangle.Dx, Rectangle.Dy] at hle
    omega
  have hB : ∀ c ∈ U, m.Overlaps c = true → m.In c = true := by
    intro c hc hov
    by_cases hpc : p.In c = true
    · exact hA c hc hpc
    · obtain ⟨d, hd, hpd, hdc⟩ := hsep c hc (by simpa using hpc)
      have hmd := (Rectangle.In_iff _ _).1 (hA d hd hpd)
      have h1 := (Rectangle.Overlaps_iff _ _).1 hov
      have h2 : d.Overlaps c = true := by
        rw [Rectangle.Overlaps_iff]
        omega
      rw [hdc] at h2
      exact absurd h2 (by decide)
  have hC : ∀ s, Generated U s → m.Overlaps s = true → m.In s = true := by
    intro s hs
    induction hs with
    | base a ha => exact hB a ha
    | step r t hr _ hrt ih =>
      intro hov
      rw [Rectangle.Intersect_of_Overlaps r t hrt] at hov ⊢
      have h1 := (Rectangle.Overlaps_iff _ _).1 hov
      have h2 := (Rectangle.Overlaps_iff _ _).1 hrt
      simp only [Rectangle.meet] at h1
      have hmr : m.Overlaps r = true := by
        rw [Rectangle.Overlaps_iff]
        omega
      have hmt : m.Overlaps t = true := by
        rw [Rectangle.Overlaps_iff]
        omega
      have k1 := (Rectangle.In_iff _ _).1 (hB r hr hmr)
      have k2 := (Rectangle.In_iff _ _).1 (ih hmt)
      rw [Rectangle.In_iff]
      simp only [Rectangle.meet]
      omega
  refine ⟨m, ?_, hpm⟩
  unfold findIntersections
  rw [mem_noOverlap]
  exact ⟨hmE, fun s hs hov => hC s (hgen s hs) hov⟩

/-! ## `getRectangles`: the splitting loop and the deduplication -/

theorem splitRectangle_total (r : Rectangle) (padding : Int) (g : Rand) :
    ∃ res g', splitRectangle r padding g = some (res, g') := by
  rw [splitRectangle_eq]
  split_ifs <;> exact ⟨_, _, rfl⟩

/-- The splitting loop never panics, and it keeps every property of the
candidate list that appending the children of a successful split keeps. -/
theorem splitLoop_invariant (padding : Int) (P : List Rectangle → Prop)
    (hstep : ∀ (rects : List Rectangle) (r : Rectangle) (res : SplitResult) (g g' : Rand),
      P rects → r ∈ rects → splitRectangle r padding g = some (res, g') → res.err = none →
      P (rects ++ [res.s1, res.s2])) :
    ∀ (n : Nat) (rects : List Rectangle) (g : Rand), rects ≠ [] → P rects →
      ∃ rects2 g2, splitLoop padding n rects g = some (rects2, g2) ∧ P rects2 := by
  intro n
  induction n with
  | zero =>
    intro rects g _ hP
    exact ⟨rects, g, rfl, hP⟩
  | succ n ih =>
    intro rects g hne hP
    have hlen : 0 < (rects.length : Int) := by
      have := List.length_pos.2 hne
      omega
    have hk1 : 0 ≤ (g.draws g.pos : Int) % (rects.length : Int) :=
      Int.emod_nonneg _ (by omega)
    have hk2 : (g.draws g.pos : Int) % (rects.length : Int) < (rects.length : Int) :=
      Int.emod_lt_of_pos _ hlen
    have hidx : ((g.draws g.pos : Int) % (rects.length : Int)).toNat < rects.length := by
      omega
    obtain ⟨res, g2, hsplit⟩ := splitRectangle_total
      (rects[((g.draws g.pos : Int) % (rects.length : Int)).toNat]) padding g.next
    rw [splitLoop, Intn_of_pos _ g hlen]
    simp only [List.getElem?_eq_getElem hidx, hsplit]
    cases herr : res.err with
    | some e => exact ih rects g2 hne hP
    | none =>
      exact ih (rects ++ [res.s1, res.s2]) g2 (by simp)
        (hstep rects _ res g.next g2 hP (List.getElem_mem _) hsplit herr)

theorem mem_dedupLoop (x : Rectangle) :
    ∀ (l uniq seen : List Rectangle), (∀ y ∈ seen, y ∈ uniq) →
      (x ∈ dedupLoop l uniq seen ↔ x ∈ uniq ∨ x ∈ l) := by
  intro l
  induction l with
  | nil => intro uniq seen _; simp [dedupLoop]
  | cons r rest ih =>
    intro uniq seen hseen
    by_cases hr : r ∈ seen
    · have : dedupLoop (r :: rest) uniq seen = dedupLoop rest uniq seen := by
        rw [dedupLoop]; simp [hr]
      rw [this, ih uniq seen hseen]
      constructor
      · rintro (h | h)
        · exact Or.inl h
        · exact Or.inr (List.mem_cons_of_mem _ h)
      · rintro (h | h)
        · exact Or.inl h
        · rcases List.mem_cons.1 h with h | h
          · subst h; exact Or.inl (hseen _ hr)
          · exact Or.inr h
    · have : dedupLoop (r :: rest) uniq seen = dedupLoop rest (uniq ++ [r]) (r :: seen) := by
        rw [dedupLoop]; simp [hr]
      have hseen2 : ∀ y ∈ r :: seen, y ∈ uniq ++ [r] := by
        intro y hy
        rcases List.mem_cons.1 hy with hy | hy
        · simp [hy]
        · exact List.mem_append_left _ (hseen y hy)
      rw [this, ih (uniq ++ [r]) (r :: seen) hseen2]
      simp only [List.mem_append, List.mem_singleton, List.mem_cons]
      tauto

theorem mem_uniqueRectangles (x : Rectangle) (numSplits : Nat) (rectangles : List Rectangle) :
    x ∈ uniqueRectangles numSplits rectangles ↔
      (x ∈ List.replicate numSplits ZR) ∨ x ∈ rectangles := by
  unfold uniqueRectangles
  exact mem_dedupLoop x rectangles _ [] (by simp)

/-- The function `candidates` never panics: it returns the list built by the
splitting loop from the seed, followed by the two halves, and the list of the
loop has every property that the seed alone has and that the loop keeps. -/
theorem candidates_spec (seed : Rectangle) (g : Rand) (P : List Rectangle → Prop)
    (hstep : ∀ (rects : List Rectangle) (r : Rectangle) (res : SplitResult) (g g' : Rand),
      P rects → r ∈ rects → splitRectangle r 100 g = some (res, g') → res.err = none →
      P (rects ++ [res.s1, res.s2]))
    (h0 : P [seed]) :
    ∃ rects g2, P rects ∧
      candidates seed g = some
        (rects ++ [Rect seed.Min.X seed.Min.Y (Int.tdiv seed.Max.X 2) seed.Max.Y,
            Rect (Int.tdiv seed.Max.X 2) seed.Min.Y seed.Max.X seed.Max.Y],
          (15 + (g.draws g.pos : Int) % 30).toNat, g2) := by
  obtain ⟨rects, g2, hloop, hP⟩ := splitLoop_invariant 100 P hstep
    (15 + (g.draws g.pos : Int) % 30).toNat [seed] g.next (by simp) h0
  refine ⟨rects, g2, hP, ?_⟩
  unfold candidates
  rw [Intn_of_pos 30 g (by decide)]
  simp only [hloop]

/-! ## Claims about the candidate list of `getRectangles` -/

/-- C9 fails on the code: for the seed (0,0)-(400,400) and all raw draws 0, the
candidate list does not contain the zero rectangle, yet the deduplicated list
handed to `findIntersections` starts with 15 copies of it (the slice made with
length `numSplits`), so it has equal entries and entries that were no candidate. -/
theorem uniqueRectangles_has_zero_entries :
    ∃ rectangles g',
      candidates ⟨⟨0, 0⟩, ⟨400, 400⟩⟩ ⟨fun _ => 0, 0⟩ = some (rectangles, 15, g') ∧
      ZR ∉ rectangles ∧
      uniqueRectangles 15 rectangles
        = List.replicate 15 ZR ++
          [⟨⟨0, 0⟩, ⟨400, 400⟩⟩, ⟨⟨0, 0⟩, ⟨100, 400⟩⟩, ⟨⟨100, 0⟩, ⟨400, 400⟩⟩,
            ⟨⟨0, 0⟩, ⟨200, 400⟩⟩, ⟨⟨200, 0⟩, ⟨400, 400⟩⟩] ∧
      ¬ (uniqueRectangles 15 rectangles).Nodup :=
  ⟨_, _, rfl, by decide, by decide, by decide⟩

/-- C10 fails as stated: for the well-formed seed (300,0)-(400,400) the left
half is built by `Rect(300, 0, 200, 400)`, which swaps the X coordinates, so
the list handed to `findIntersections` has (200,0)-(300,400) and not the
rectangle with bounds (300,0)-(200,400). -/
theorem candidates_left_half_swapped :
    Rectangle.WellFormed ⟨⟨300, 0⟩, ⟨400, 400⟩⟩ ∧
      ∃ rectangles g',
        candidates ⟨⟨300, 0⟩, ⟨400, 400⟩⟩ ⟨fun _ => 0, 0⟩ = some (rectangles, 15, g') ∧
        (⟨⟨300, 0⟩, ⟨Int.fdiv 400 2, 400⟩⟩ : Rectangle) ∉ uniqueRectangles 15 rectangles ∧
        (⟨⟨200, 0⟩, ⟨300, 400⟩⟩ : Rectangle) ∈ uniqueRectangles 15 rectangles :=
  ⟨⟨by decide, by decide⟩, _, _, rfl, by decide, by decide⟩

/-- C10, amended: for every well-formed seed with `maxX ≥ 0` and
`minX ≤ floor(maxX/2)` and every sequence of draws, `getRectangles` reaches
`findIntersections`, and the list it passes contains the left half
(minX, minY)-(floor(maxX/2), maxY) and the right half
(floor(maxX/2), minY)-(maxX, maxY). -/
theorem candidates_contain_halves (seed : Rectangle) (g : Rand) (hwf : seed.WellFormed)
    (hmax : 0 ≤ seed.Max.X) (hmin : seed.Min.X ≤ Int.fdiv seed.Max.X 2) :
    ∃ rectangles numSplits g', candidates seed g = some (rectangles, numSplits, g') ∧
      (⟨seed.Min, ⟨Int.fdiv seed.Max.X 2, seed.Max.Y⟩⟩ : Rectangle)
        ∈ uniqueRectangles numSplits rectangles ∧
      (⟨⟨Int.fdiv seed.Max.X 2, seed.Min.Y⟩, seed.Max⟩ : Rectangle)
        ∈ uniqueRectangles numSplits rectangles := by
  obtain ⟨rects, g2, _, hc⟩ := candidates_spec seed g (fun _ => True)
    (fun _ _ _ _ _ _ _ _ _ => trivial) trivial
  have hq : Int.tdiv seed.Max.X 2 = Int.fdiv seed.Max.X 2 := by
    rw [Int.tdiv_eq_ediv hmax (by decide), Int.fdiv_eq_ediv _ (by decide)]
  have hq2 : Int.fdiv seed.Max.X 2 ≤ seed.Max.X := by
    rw [Int.fdiv_eq_ediv _ (by decide)]
    omega
  rw [hq, Rect_of_le _ _ _ _ hmin hwf.2, Rect_of_le _ _ _ _ hq2 hwf.2] at hc
  refine ⟨_, _, g2, hc, ?_, ?_⟩
  · rw [mem_uniqueRectangles]
    right
    simp
  · rw [mem_uniqueRectangles]
    right
    simp

/-- C10 amended, at the seed (0,0)-(400,400) with all raw draws 0: the list
passed to `findIntersections` contains (0,0)-(200,400) and (200,0)-(400,400). -/
theorem candidates_contain_halves_witness :
    ∃ rectangles numSplits g',
      candidates ⟨⟨0, 0⟩, ⟨400, 400⟩⟩ ⟨fun _ => 0, 0⟩ = some (rectangles, numSplits, g') ∧
      (⟨⟨0, 0⟩, ⟨200, 400⟩⟩ : Rectangle) ∈ uniqueRectangles numSplits rectangles ∧
      (⟨⟨200, 0⟩, ⟨400, 400⟩⟩ : Rectangle) ∈ uniqueRectangles numSplits rectangles :=
  candidates_contain_halves ⟨⟨0, 0⟩, ⟨400, 400⟩⟩ ⟨fun _ => 0, 0⟩
    ⟨by decide, by decide⟩ (by decide) (by decide)

/-! ## No gaps: the output of `getRectangles` covers the seed -/

theorem isCut_vertical (r : Rectangle) (o : Int) (hwf : r.WellFormed)
    (h1 : r.Min.X ≤ o) (h2 : o ≤ r.Max.X) :
    IsCut r ⟨r.Min, ⟨o, r.Max.Y⟩⟩ ⟨⟨o, r.Min.Y⟩, r.Max⟩ := by
  obtain ⟨hwx, hwy⟩ := hwf
  refine ⟨⟨h1, hwy⟩, ⟨h2, hwy⟩, ?_, ?_, ?_, ?_⟩
  · by_contra c
    have c2 := (Rectangle.Overlaps_iff _ _).1 (by simpa using c)
    simp only at c2
    omega
  · intro p hp
    rw [Point.In_bounds_iff] at hp
    rw [Point.In_bounds_iff, Point.In_bounds_iff]
    simp only
    omega
  · intro d hd
    rw [Rectangle.Overlaps_iff] at hd ⊢
    simp only at hd
    omega
  · intro d hd
    rw [Rectangle.Overlaps_iff] at hd ⊢
    simp only at hd
    omega

theorem isCut_horizontal (r : Rectangle) (o : Int) (hwf : r.WellFormed)
    (h1 : r.Min.Y ≤ o) (h2 : o ≤ r.Max.Y) :
    IsCut r ⟨r.Min, ⟨r.Max.X, o⟩⟩ ⟨⟨r.Min.X, o⟩, r.Max⟩ := by
  obtain ⟨hwx, hwy⟩ := hwf
  refine ⟨⟨hwx, h1⟩, ⟨hwx, h2⟩, ?_, ?_, ?_, ?_⟩
  · by_contra c
    have c2 := (Rectangle.Overlaps_iff _ _).1 (by simpa using c)
    simp only at c2
    omega
  · intro p hp
    rw [Point.In_bounds_iff] at hp
    rw [Point.In_bounds_iff, Point.In_bounds_iff]
    simp only
    omega
  · intro d hd
    rw [Rectangle.Overlaps_iff] at hd ⊢
    simp only at hd
    omega
  · intro d hd
    rw [Rectangle.Overlaps_iff] at hd ⊢
    simp only at hd
    omega

/-- The children of a successful split of a well-formed rectangle, with
non-negative padding, are a clean cut of it. -/
theorem splitRectangle_isCut (r : Rectangle) (padding : Int) (g g' : Rand)
    (res : SplitResult) (hwf : r.WellFormed) (hp : 0 ≤ padding)
    (hnw : NoWrap r padding g)
    (h : splitRectangle r padding g = some (res, g')) (hok : res.err = none) :
    IsCut r res.s1 res.s2 := by
  rcases splitRectangle_ok_form r padding g g' res hnw h hok with
    ⟨_, o, h1, h2, hs1, hs2⟩ | ⟨_, o, h1, h2, hs1, hs2⟩
  · rw [Rect_of_le _ _ _ _ (by omega) hwf.2] at hs1
    rw [Rect_of_le _ _ _ _ (by omega) hwf.2] at hs2
    rw [hs1, hs2]
    exact isCut_vertical r o hwf (by omega) (by omega)
  · rw [Rect_of_le _ _ _ _ hwf.1 (by omega)] at hs1
    rw [Rect_of_le _ _ _ _ hwf.1 (by omega)] at hs2
    rw [hs1, hs2]
    exact isCut_horizontal r o hwf (by omega) (by omega)

/-- Appending a clean cut of one of its rectangles keeps the candidate list
well-formed and separated. -/
theorem candidatesOk_append_cut (seed r s1 s2 : Rectangle) (l : List Rectangle)
    (hl : CandidatesOk seed l) (hr : r ∈ l) (hcut : IsCut r s1 s2) :
    CandidatesOk seed (l ++ [s1, s2]) := by
  obtain ⟨hseed, hwf, hsep⟩ := hl
  obtain ⟨w1, w2, hno, hcov, hin1, hin2⟩ := hcut
  have hno2 : s2.Overlaps s1 = false := by rw [Rectangle.Overlaps_comm]; exact hno
  refine ⟨List.mem_append_left _ hseed, ?_, ?_⟩
  · intro c hc
    rcases List.mem_append.1 hc with hc | hc
    · exact hwf c hc
    · simp only [List.mem_cons, List.mem_singleton, List.not_mem_nil, or_false] at hc
      rcases hc with hc | hc
      · rw [hc]; exact w1
      · rw [hc]; exact w2
  · intro c hc p hps hpc
    have hside : ∀ (a b : Rectangle), a ∈ l ++ [s1, s2] → b ∈ l ++ [s1, s2] →
        b.Overlaps a = false → (∀ q : Point, q.In r = true → q.In a = true ∨ q.In b = true) →
        (∀ d : Rectangle, d.Overlaps a = true → d.Overlaps r = true) →
        p.In a = false → ∃ d ∈ l ++ [s1, s2], p.In d = true ∧ d.Overlaps a = false := by
      intro a b _ hb hba hcv hia hpa
      by_cases hpr : p.In r = true
      · rcases hcv p hpr with h | h
        · rw [hpa] at h
          exact absurd h (by decide)
        · exact ⟨b, hb, h, hba⟩
      · obtain ⟨d, hd, hpd, hdr⟩ := hsep r hr p hps (by simpa using hpr)
        refine ⟨d, List.mem_append_left _ hd, hpd, ?_⟩
        by_contra c2
        have := hia d (by simpa using c2)
        rw [hdr] at this
        exact absurd this (by decide)
    rcases List.mem_append.1 hc with hc | hc
    · obtain ⟨d, hd, hpd, hdc⟩ := hsep c hc p hps hpc
      exact ⟨d, List.mem_append_left _ hd, hpd, hdc⟩
    · simp only [List.mem_cons, List.mem_singleton, List.not_mem_nil, or_false] at hc
      rcases hc with hc | hc
      · subst hc
        exact hside c s2 (by simp) (by simp) hno2 hcov hin1 hpc
      · subst hc
        exact hside c s1 (by simp) (by simp) hno
          (fun q hq => (hcov q hq).symm) hin2 hpc

/-- With padding 100 nothing wraps in `splitRectangle` on a well-formed
rectangle whose coordinates are bounded. -/
theorem noWrap_of_bounded (r : Rectangle) (g : Rand) (hwf : r.WellFormed)
    (hb : Bounded100 r) : NoWrap r 100 g := by
  obtain ⟨hwx, hwy⟩ := hwf
  obtain ⟨⟨b1, b2, b3⟩, ⟨b4, b5, b6⟩⟩ := hb
  unfold NoWrap NoOverflow IsInt64
  split_ifs <;> omega

/-- The children of a successful split, with padding 100, of a well-formed
rectangle with bounded coordinates are a clean cut of it and have bounded
coordinates again. -/
theorem splitRectangle_children_bounded (r : Rectangle) (g g' : Rand) (res : SplitResult)
    (hwf : r.WellFormed) (hb : Bounded100 r)
    (h : splitRectangle r 100 g = some (res, g')) (hok : res.err = none) :
    IsCut r res.s1 res.s2 ∧ Bounded100 res.s1 ∧ Bounded100 res.s2 := by
  have hnw := noWrap_of_bounded r g hwf hb
  refine ⟨splitRectangle_isCut r 100 g g' res hwf (by decide) hnw h hok, ?_⟩
  obtain ⟨⟨b1, b2, b3⟩, ⟨b4, b5, b6⟩⟩ := hb
  rcases splitRectangle_ok_form r 100 g g' res hnw h hok with
    ⟨_, o, h1, h2, hs1, hs2⟩ | ⟨_, o, h1, h2, hs1, hs2⟩
  · rw [Rect_of_le _ _ _ _ (by omega) hwf.2] at hs1
    rw [Rect_of_le _ _ _ _ (by omega) hwf.2] at hs2
    rw [hs1, hs2]
    unfold Bounded100
    simp only
    omega
  · rw [Rect_of_le _ _ _ _ hwf.1 (by omega)] at hs1
    rw [Rect_of_le _ _ _ _ hwf.1 (by omega)] at hs2
    rw [hs1, hs2]
    unfold Bounded100
    simp only
    omega

/-- The list handed to `findIntersections` by `getRectangles`, for a seed with
`Min = (0,0)` and positive `Max` (values of a 64-bit `int`): `candidates`
returns, and the deduplicated list contains the seed and is separated. -/
theorem uniqueRectangles_separated (seed : Rectangle) (g : Rand)
    (hmin : seed.Min = ⟨0, 0⟩) (hx : 0 < seed.Max.X) (hy : 0 < seed.Max.Y)
    (hxr : seed.Max.X ≤ 9223372036854775807) (hyr : seed.Max.Y ≤ 9223372036854775807) :
    ∃ rectangles numSplits g', candidates seed g = some (rectangles, numSplits, g') ∧
      seed ∈ uniqueRectangles numSplits rectangles ∧
      Separated seed (uniqueRectangles numSplits rectangles) := by
  have hminX : seed.Min.X = 0 := by rw [hmin]
  have hminY : seed.Min.Y = 0 := by rw [hmin]
  have hwf : seed.WellFormed := ⟨by omega, by omega⟩
  have hbs : Bounded100 seed := by
    unfold Bounded100
    omega
  have h0 : CandidatesOk seed [seed] ∧ ∀ c ∈ [seed], Bounded100 c := by
    refine ⟨⟨by simp, ?_, ?_⟩, ?_⟩
    · intro c hc
      rw [List.mem_singleton.1 hc]
      exact hwf
    · intro c hc p hps hpc
      rw [List.mem_singleton.1 hc, hps] at hpc
      exact absurd hpc (by decide)
    · intro c hc
      rw [List.mem_singleton.1 hc]
      exact hbs
  obtain ⟨rects, g2, ⟨hok, _⟩, hc⟩ := candidates_spec seed g
    (fun l => CandidatesOk seed l ∧ ∀ c ∈ l, Bounded100 c)
    (fun rects r res g g' hP hr hs he => by
      obtain ⟨hcut, hb1, hb2⟩ := splitRectangle_children_bounded r g g' res
        (hP.1.2.1 r hr) (hP.2 r hr) hs he
      refine ⟨candidatesOk_append_cut seed r res.s1 res.s2 rects hP.1 hr hcut, ?_⟩
      intro c hc
      rcases List.mem_append.1 hc with hc | hc
      · exact hP.2 c hc
      · simp only [List.mem_cons, List.mem_singleton, List.not_mem_nil, or_false] at hc
        rcases hc with hc | hc
        · rw [hc]; exact hb1
        · rw [hc]; exact hb2)
    h0
  have hq : Int.tdiv seed.Max.X 2 = seed.Max.X / 2 :=
    Int.tdiv_eq_ediv (by omega) (by decide)
  have hq1 : seed.Min.X ≤ seed.Max.X / 2 := by omega
  have hq2 : seed.Max.X / 2 ≤ seed.Max.X := by omega
  rw [hq, Rect_of_le _ _ _ _ hq1 hwf.2, Rect_of_le _ _ _ _ hq2 hwf.2] at hc
  have hok2 := candidatesOk_append_cut seed seed _ _ rects hok hok.1
    (isCut_vertical seed (seed.Max.X / 2) hwf hq1 hq2)
  refine ⟨_, _, g2, hc, ?_, ?_⟩
  · rw [mem_uniqueRectangles]
    exact Or.inr hok2.1
  · intro c hc p hps hpc
    rw [mem_uniqueRectangles] at hc
    rcases hc with hc | hc
    · have hz : c = ZR := List.eq_of_mem_replicate hc
      refine ⟨seed, ?_, hps, ?_⟩
      · rw [mem_uniqueRectangles]
        exact Or.inr hok2.1
      · rw [hz]
        exact Rectangle.Overlaps_ZR seed
    · obtain ⟨d, hd, hpd, hdc⟩ := hok2.2.2 c hc p hps hpc
      refine ⟨d, ?_, hpd, hdc⟩
      rw [mem_uniqueRectangles]
      exact Or.inr hd

/-- C2: no gaps. For every seed with `Min = (0,0)`, `Max.X > 0` and `Max.Y > 0`
(`Max.X` and `Max.Y` being values of Go's 64-bit `int`, at most 2^63 - 1) and
every stream of draws, `getRectangles` returns, and every integer point
`(x, y)` with `0 ≤ x < Max.X` and `0 ≤ y < Max.Y` lies in at least one rectangle
of the returned list. -/
theorem getRectangles_no_gaps (seed : Rectangle) (g : Rand)
    (hmin : seed.Min = ⟨0, 0⟩) (hx : 0 < seed.Max.X) (hy : 0 < seed.Max.Y)
    (hxr : seed.Max.X ≤ 9223372036854775807) (hyr : seed.Max.Y ≤ 9223372036854775807) :
    ∃ out g', getRectangles seed g = some (out, g') ∧
      ∀ x y : Int, 0 ≤ x → x < seed.Max.X → 0 ≤ y → y < seed.Max.Y →
        ∃ r ∈ out, Point.In ⟨x, y⟩ r = true := by
  obtain ⟨rects, n, g2, hc, hseed, hsep⟩ :=
    uniqueRectangles_separated seed g hmin hx hy hxr hyr
  refine ⟨findIntersections (uniqueRectangles n rects), g2, ?_, ?_⟩
  · unfold getRectangles
    rw [hc]
  · intro x y hx0 hx1 hy0 hy1
    have hps : Point.In ⟨x, y⟩ seed = true := by
      rw [Point.In_bounds_iff, hmin]
      exact ⟨hx0, hx1, hy0, hy1⟩
    exact findIntersections_covers (uniqueRectangles n rects) ⟨x, y⟩ seed hseed hps
      (fun c hc hpc => hsep c hc ⟨x, y⟩ hps hpc)

/-- C2, at the seed (0,0)-(400,400) with all raw draws 0: `getRectangles`
returns a list that covers every point of the seed. -/
theorem getRectangles_no_gaps_witness :
    ∃ out g', getRectangles ⟨⟨0, 0⟩, ⟨400, 400⟩⟩ ⟨fun _ => 0, 0⟩ = some (out, g') ∧
      ∀ x y : Int, 0 ≤ x → x < 400 → 0 ≤ y → y < 400 →
        ∃ r ∈ out, Point.In ⟨x, y⟩ r = true :=
  getRectangles_no_gaps ⟨⟨0, 0⟩, ⟨400, 400⟩⟩ ⟨fun _ => 0, 0⟩ rfl (by decide) (by decide)
    (by decide) (by decide)

/-! ## Claims about the fill decision of `mondrian` -/

/-- The fill decision never panics: it reads two draws, and after a first draw
of 0 the key is the second draw modulo 5. -/
theorem fillKey_eq (g : Rand) :
    fillKey g =
      if (g.draws g.pos : Int) % 4 = 0 then
        some ((g.draws (g.pos + 1) : Int) % 5, g.next.next)
      else if (g.draws (g.pos + 1) : Int) % 4 = 0 then some (COPY, g.next.next)
      else some (WHITE, g.next.next) := by
  unfold fillKey
  rw [Intn_of_pos 4 g (by decide)]
  by_cases ha : (g.draws g.pos : Int) % 4 = 0
  · simp only [ha, bne_self_eq_false, Bool.false_eq_true, if_false, if_true]
    rw [Intn_of_pos _ _ (by decide)]
    rfl
  · have hb : ((g.draws g.pos : Int) % 4 != 0) = true := by simpa using ha
    simp only [hb, if_true, if_neg ha]
    rw [Intn_of_pos _ _ (by decide)]
    rfl

/-- C11 fails as stated: when the first draw is 0 (the second branch) and the
next raw draw is 3, the key is `rand.Intn(WHITE+1) = 3`, which is `COPY`. -/
theorem fillKey_second_branch_copy :
    Intn 4 ⟨fun i => if i = 0 then 0 else 3, 0⟩
        = some (0, ⟨fun i => if i = 0 then 0 else 3, 1⟩) ∧
      fillKey ⟨fun i => if i = 0 then 0 else 3, 0⟩
        = some (COPY, ⟨fun i => if i = 0 then 0 else 3, 2⟩) :=
  ⟨rfl, rfl⟩

/-- C11, amended: when the first draw selects the second branch
(`rand.Intn(4) == 0`), the fill decision returns the key `rand.Intn(WHITE+1)`,
one of RED, BLUE, YELLOW, COPY, WHITE; it is COPY exactly when that draw is 3. -/
theorem fillKey_second_branch (g : Rand) (h : (g.draws g.pos : Int) % 4 = 0) :
    ∃ key g', fillKey g = some (key, g') ∧
      key = (g.draws (g.pos + 1) : Int) % (WHITE + 1) ∧
      (key = RED ∨ key = BLUE ∨ key = YELLOW ∨ key = COPY ∨ key = WHITE) ∧
      (key = COPY ↔ (g.draws (g.pos + 1) : Int) % 5 = 3) := by
  rw [fillKey_eq, if_pos h]
  refine ⟨_, _, rfl, rfl, ?_, ?_⟩
  · simp only [RED, BLUE, YELLOW, COPY, WHITE]
    omega
  · simp only [COPY]

/-- C11 amended, at the stream 0, 4, 4, ...: the second branch returns WHITE. -/
theorem fillKey_second_branch_witness :
    ∃ key g', fillKey ⟨fun i => if i = 0 then 0 else 4, 0⟩ = some (key, g') ∧ key = WHITE := by
  obtain ⟨key, g', h1, h2, _⟩ :=
    fillKey_second_branch ⟨fun i => if i = 0 then 0 else 4, 0⟩ (by decide)
  exact ⟨key, g', h1, by rw [h2]; decide⟩

/-! ## Claims about the overlap test and the survivors of the second phase -/

/-- C12 fails as stated: the non-empty well-formed rectangle (0,0)-(10,10)
overlaps itself under `Overlaps`. -/
theorem Overlaps_self_true :
    Rectangle.WellFormed ⟨⟨0, 0⟩, ⟨10, 10⟩⟩ ∧
      Rectangle.Empty ⟨⟨0, 0⟩, ⟨10, 10⟩⟩ = false ∧
      Rectangle.Overlaps ⟨⟨0, 0⟩, ⟨10, 10⟩⟩ ⟨⟨0, 0⟩, ⟨10, 10⟩⟩ = true :=
  ⟨⟨by decide, by decide⟩, by decide, by decide⟩

/-- C12, amended: `Overlaps` reports that a rectangle does not overlap itself
exactly when the rectangle is empty; for every rectangle, it is the whole test
of the second phase, `r.Overlaps(s) && r != s && !r.In(s)`, that is false at
`s = r`, so no rectangle knocks itself out. -/
theorem Overlaps_self_iff (A : Rectangle) :
    (A.Overlaps A = false ↔ A.Empty = true) ∧
      (A.Overlaps A && decide (A ≠ A) && !A.In A) = false := by
  constructor
  · constructor
    · intro h
      by_contra c
      have c2 : A.Empty = false := by simpa using c
      rw [Rectangle.not_Empty_iff] at c2
      have : A.Overlaps A = true := by
        rw [Rectangle.Overlaps_iff]
        omega
      rw [h] at this
      exact absurd this (by decide)
    · intro h
      by_contra c
      have c2 := (Rectangle.Overlaps_iff A A).1 (by simpa using c)
      rw [Rectangle.Empty_iff] at h
      omega
  · simp

/-- C19: two rectangles of the output of `findIntersections` that have
different bounds do not overlap. -/
theorem findIntersections_no_overlap_of_ne (rs : List Rectangle) (a b : Rectangle)
    (ha : a ∈ findIntersections rs) (hb : b ∈ findIntersections rs) (hab : a ≠ b) :
    a.Overlaps b = false := by
  unfold findIntersections at ha hb
  rw [mem_noOverlap] at ha hb
  by_contra c
  have ho : a.Overlaps b = true := by simpa using c
  have ho2 : b.Overlaps a = true := by rw [Rectangle.Overlaps_comm]; exact ho
  exact hab (Rectangle.eq_of_Overlaps_In_In a b ho (ha.2 b hb.1 ho) (hb.2 a ha.1 ho2))

/-- C19, at the input [(0,0)-(10,10), (5,5)-(15,15), (20,20)-(30,30)]: the
survivors (20,20)-(30,30) and (5,5)-(10,10) differ and do not overlap. -/
theorem findIntersections_no_overlap_of_ne_witness :
    (⟨⟨20, 20⟩, ⟨30, 30⟩⟩ : Rectangle)
        ∈ findIntersections [⟨⟨0, 0⟩, ⟨10, 10⟩⟩, ⟨⟨5, 5⟩, ⟨15, 15⟩⟩, ⟨⟨20, 20⟩, ⟨30, 30⟩⟩] ∧
      (⟨⟨5, 5⟩, ⟨10, 10⟩⟩ : Rectangle)
        ∈ findIntersections [⟨⟨0, 0⟩, ⟨10, 10⟩⟩, ⟨⟨5, 5⟩, ⟨15, 15⟩⟩, ⟨⟨20, 20⟩, ⟨30, 30⟩⟩] ∧
      Rectangle.Overlaps ⟨⟨20, 20⟩, ⟨30, 30⟩⟩ ⟨⟨5, 5⟩, ⟨10, 10⟩⟩ = false :=
  ⟨by decide, by decide,
    findIntersections_no_overlap_of_ne
      [⟨⟨0, 0⟩, ⟨10, 10⟩⟩, ⟨⟨5, 5⟩, ⟨15, 15⟩⟩, ⟨⟨20, 20⟩, ⟨30, 30⟩⟩]
      ⟨⟨20, 20⟩, ⟨30, 30⟩⟩ ⟨⟨5, 5⟩, ⟨10, 10⟩⟩ (by decide) (by decide) (by decide)⟩

/-- C20: a survivor `r` of `findIntersections` is a minimal piece: a non-empty
rectangle `t` of the enlarged list that lies inside `r` is `r` itself, and a
rectangle of the enlarged list that overlaps `r` contains `r`. -/
theorem findIntersections_survivor_minimal (rs : List Rectangle) (r t : Rectangle)
    (hr : r ∈ findIntersections rs) (ht : t ∈ enlarged rs) :
    (t.Empty = false → t.In r = true → t = r) ∧
      (t.Overlaps r = true → r.In t = true) := by
  unfold findIntersections at hr
  rw [mem_noOverlap] at hr
  have hsecond : t.Overlaps r = true → r.In t = true := by
    intro ho
    rw [Rectangle.Overlaps_comm] at ho
    exact hr.2 t ht ho
  refine ⟨?_, hsecond⟩
  intro hne hin
  have h1 := (Rectangle.not_Empty_iff t).1 hne
  have h2 := (Rectangle.In_iff t r).1 hin
  have ho : t.Overlaps r = true := by
    rw [Rectangle.Overlaps_iff]
    omega
  exact Rectangle.eq_of_Overlaps_In_In t r ho hin (hsecond ho)

/-- C20, at the input [(0,0)-(10,10), (2,2)-(5,5)]: the survivor (2,2)-(5,5) is
inside the rectangle (0,0)-(10,10) of the enlarged list that overlaps it. -/
theorem findIntersections_survivor_minimal_witness :
    (⟨⟨2, 2⟩, ⟨5, 5⟩⟩ : Rectangle)
        ∈ findIntersections [⟨⟨0, 0⟩, ⟨10, 10⟩⟩, ⟨⟨2, 2⟩, ⟨5, 5⟩⟩] ∧
      (⟨⟨0, 0⟩, ⟨10, 10⟩⟩ : Rectangle) ∈ enlarged [⟨⟨0, 0⟩, ⟨10, 10⟩⟩, ⟨⟨2, 2⟩, ⟨5, 5⟩⟩] ∧
      Rectangle.In ⟨⟨2, 2⟩, ⟨5, 5⟩⟩ ⟨⟨0, 0⟩, ⟨10, 10⟩⟩ = true :=
  ⟨by decide, by decide,
    (findIntersections_survivor_minimal [⟨⟨0, 0⟩, ⟨10, 10⟩⟩, ⟨⟨2, 2⟩, ⟨5, 5⟩⟩]
      ⟨⟨2, 2⟩, ⟨5, 5⟩⟩ ⟨⟨0, 0⟩, ⟨10, 10⟩⟩ (by decide) (by decide)).2 (by decide)⟩

/-! ## Claims about the two phases of `findIntersections` -/

/-- The enlarged list contains the intersection of every generated rectangle
with every element it overlaps. -/
theorem enlarged_closed_of_generated (rs : List Rectangle) (a : Rectangle)
    (ha : Generated rs a) :
    ∀ b ∈ enlarged rs, a.Overlaps b = true → a.Intersect b ∈ enlarged rs := by
  obtain ⟨_, _, _, hJ⟩ := enlarged_spec rs
  induction ha with
  | base a ha => exact fun b hb ho => hJ a ha b hb ho
  | step r t hr _ _ ih =>
    intro b hb ho
    have ho2 : b.Overlaps (r.Intersect t) = true := by
      rw [Rectangle.Overlaps_comm]; exact ho
    obtain ⟨_, hbt, hrbt, heq⟩ := Rectangle.Intersect_left_comm b r t ho2
    have htb : t.Overlaps b = true := by rw [Rectangle.Overlaps_comm]; exact hbt
    have hmem := ih b hb htb
    rw [Rectangle.Intersect_comm (r.Intersect t) b, heq]
    rw [Rectangle.Intersect_comm t b] at hmem
    exact hJ r hr _ hmem hrbt

/-- C16: after the first phase all intersections have been found: for any two
elements `a`, `b` of the enlarged list whose intersection is non-empty, that
intersection is an element of the enlarged list. -/
theorem enlarged_closed (rs : List Rectangle) (a b : Rectangle)
    (ha : a ∈ enlarged rs) (hb : b ∈ enlarged rs) (hne : (a.Intersect b).Empty = false) :
    a.Intersect b ∈ enlarged rs := by
  obtain ⟨_, _, hgen, _⟩ := enlarged_spec rs
  exact enlarged_closed_of_generated rs a (hgen a ha) b hb
    ((Rectangle.Intersect_Empty_iff a b).1 hne)

/-- C16, at the input [(0,0)-(10,10), (5,5)-(15,15), (8,0)-(12,12)]: the
appended (5,5)-(10,10) and the input (8,0)-(12,12) meet in (8,5)-(10,10), which
is in the enlarged list. -/
theorem enlarged_closed_witness :
    Rectangle.Intersect ⟨⟨5, 5⟩, ⟨10, 10⟩⟩ ⟨⟨8, 0⟩, ⟨12, 12⟩⟩ = ⟨⟨8, 5⟩, ⟨10, 10⟩⟩ ∧
      (⟨⟨8, 5⟩, ⟨10, 10⟩⟩ : Rectangle)
        ∈ enlarged [⟨⟨0, 0⟩, ⟨10, 10⟩⟩, ⟨⟨5, 5⟩, ⟨15, 15⟩⟩, ⟨⟨8, 0⟩, ⟨12, 12⟩⟩] :=
  ⟨by decide,
    enlarged_closed [⟨⟨0, 0⟩, ⟨10, 10⟩⟩, ⟨⟨5, 5⟩, ⟨15, 15⟩⟩, ⟨⟨8, 0⟩, ⟨12, 12⟩⟩]
      ⟨⟨5, 5⟩, ⟨10, 10⟩⟩ ⟨⟨8, 0⟩, ⟨12, 12⟩⟩ (by decide) (by decide) (by decide)⟩

/-- C17: the second phase is an order-preserving filter of the enlarged list
`E`: the output is the sublist of the `r` in `E` for which no `s` in `E` has
`r.Overlaps(s)`, `r ≠ s` and not `r.In(s)`; so every output rectangle is
generated from the input: an input rectangle or an intersection of input
rectangles. -/
theorem findIntersections_eq_filter (rs : List Rectangle) :
    findIntersections rs
        = (enlarged rs).filter (fun r =>
            decide (¬ ∃ s ∈ enlarged rs, r.Overlaps s = true ∧ r ≠ s ∧ r.In s = false)) ∧
      (findIntersections rs).Sublist (enlarged rs) ∧
      ∀ r ∈ findIntersections rs, Generated rs r := by
  have hfilter : findIntersections rs
      = (enlarged rs).filter (fun r =>
          decide (¬ ∃ s ∈ enlarged rs, r.Overlaps s = true ∧ r ≠ s ∧ r.In s = false)) := by
    unfold findIntersections noOverlap
    apply List.filter_congr
    intro r _
    by_cases h : rOverlaps (enlarged rs) r = false
    · have h2 : ¬ ∃ s ∈ enlarged rs, r.Overlaps s = true ∧ r ≠ s ∧ r.In s = false := by
        rintro ⟨s, hs, ho, _, hin⟩
        have := (rOverlaps_eq_false_iff _ _).1 h s hs ho
        rw [hin] at this
        exact absurd this (by decide)
      simp [h, h2]
    · have h2 : ∃ s ∈ enlarged rs, r.Overlaps s = true ∧ r ≠ s ∧ r.In s = false := by
        by_contra c
        apply h
        rw [rOverlaps_eq_false_iff]
        intro s hs ho
        by_contra c2
        have hin : r.In s = false := by simpa using c2
        refine c ⟨s, hs, ho, ?_, hin⟩
        intro he
        rw [he, Rectangle.In_self] at hin
        exact absurd hin (by decide)
      have h3 : rOverlaps (enlarged rs) r = true := by simpa using h
      simp [h3, h2]
  refine ⟨hfilter, ?_, ?_⟩
  · unfold findIntersections noOverlap
    exact List.filter_sublist _
  · intro r hr
    obtain ⟨_, _, hgen, _⟩ := enlarged_spec rs
    unfold findIntersections at hr
    exact hgen r ((mem_noOverlap _ r).1 hr).1

/-! ## The first phase of `findIntersections`: what is appended, and how much -/

/-- One run of the inner loop, started with the appended part `app` and its keys
`app.reverse` in the seen set: it appends distinct, non-empty intersections of
`r` with elements of the snapshot, at most one for each element. -/
theorem intersectInner_trace (r : Rectangle) (orig : List Rectangle) :
    ∀ (l app : List Rectangle), ∃ new : List Rectangle,
      intersectInner r l (orig ++ app, app.reverse)
        = (orig ++ (app ++ new), (app ++ new).reverse) ∧
      (app.Nodup → (app ++ new).Nodup) ∧
      (∀ x ∈ new, x.Empty = false ∧ ∃ s ∈ l, r.Overlaps s = true ∧ x = r.Intersect s) ∧
      new.length ≤ l.length := by
  intro l
  induction l with
  | nil =>
    intro app
    exact ⟨[], by simp [intersectInner], by simp, by simp, by simp⟩
  | cons s rest ih =>
    intro app
    by_cases hadd : (r.Intersect s).Empty = false ∧ r.Intersect s ∉ app.reverse
    · obtain ⟨new, h1, h2, h3, h4⟩ := ih (app ++ [r.Intersect s])
      have hov : r.Overlaps s = true := (Rectangle.Intersect_Empty_iff r s).1 hadd.1
      have hnotin : r.Intersect s ∉ app := fun c => hadd.2 (List.mem_reverse.2 c)
      refine ⟨r.Intersect s :: new, ?_, ?_, ?_, ?_⟩
      · rw [intersectInner_cons_append r s rest _ _ hadd.1 hadd.2]
        have e1 : orig ++ app ++ [r.Intersect s] = orig ++ (app ++ [r.Intersect s]) := by simp
        have e2 : r.Intersect s :: app.reverse = (app ++ [r.Intersect s]).reverse := by simp
        rw [e1, e2, h1]
        simp
      · intro hnd
        have hnd2 : (app ++ [r.Intersect s]).Nodup := by
          rw [List.nodup_append]
          refine ⟨hnd, by simp, ?_⟩
          intro x hx hy
          rw [List.mem_singleton.1 hy] at hx
          exact hnotin hx
        have := h2 hnd2
        simpa using this
      · intro x hx
        rcases List.mem_cons.1 hx with hx | hx
        · rw [hx]
          exact ⟨hadd.1, s, List.mem_cons_self _ _, hov, rfl⟩
        · obtain ⟨k1, t, ht, k2, k3⟩ := h3 x hx
          exact ⟨k1, t, List.mem_cons_of_mem _ ht, k2, k3⟩
      · simp only [List.length_cons]
        omega
    · have hskip : (r.Intersect s).Empty = true ∨ r.Intersect s ∈ app.reverse := by
        by_cases he : (r.Intersect s).Empty = true
        · exact Or.inl he
        · right
          by_contra c
          exact hadd ⟨by simpa using he, c⟩
      obtain ⟨new, h1, h2, h3, h4⟩ := ih app
      refine ⟨new, ?_, h2, ?_, ?_⟩
      · rw [intersectInner_cons_skip r s rest _ _ hskip]
        exact h1
      · intro x hx
        obtain ⟨k1, t, ht, k2, k3⟩ := h3 x hx
        exact ⟨k1, t, List.mem_cons_of_mem _ ht, k2, k3⟩
      · simp only [List.length_cons]
        omega

theorem appendedFrom_append (orig app new : List Rectangle) (r : Rectangle)
    (l : List Rectangle) (hr : r ∈ orig) (hl : ∀ s ∈ l, s ∈ orig ++ app)
    (hQ : AppendedFrom orig app)
    (hnew : ∀ x ∈ new, x.Empty = false ∧ ∃ s ∈ l, r.Overlaps s = true ∧ x = r.Intersect s) :
    AppendedFrom orig (app ++ new) := by
  intro k a hk
  by_cases hlt : k < app.length
  · rw [List.getElem?_append_left hlt] at hk
    rw [List.take_append_of_le_length (Nat.le_of_lt hlt)]
    exact hQ k a hk
  · have hge : app.length ≤ k := Nat.le_of_not_lt hlt
    rw [List.getElem?_append_right hge] at hk
    obtain ⟨h1, s, hs, h2, h3⟩ := hnew a (List.getElem?_mem hk)
    refine ⟨h1, r, hr, s, ?_, h2, h3⟩
    rw [List.take_append_eq_append_take, List.take_of_length_le hge]
    rcases List.mem_append.1 (hl s hs) with h | h
    · exact List.mem_append_left _ h
    · exact List.mem_append_right _ (List.mem_append_left _ h)

/-- The outer loop, started with the appended part `app`: it only appends, the
appended part stays free of duplicates, and each appended rectangle comes from
an original one and an element before it. -/
theorem intersectOuter_trace (orig : List Rectangle) :
    ∀ (todo : List Rectangle) (i : Nat) (app : List Rectangle), (∀ x ∈ todo, x ∈ orig) →
      ∃ more : List Rectangle,
        (intersectOuter todo i (orig ++ app, app.reverse)).1 = orig ++ (app ++ more) ∧
        (app.Nodup → (app ++ more).Nodup) ∧
        (AppendedFrom orig app → AppendedFrom orig (app ++ more)) := by
  intro todo
  induction todo with
  | nil =>
    intro i app _
    exact ⟨[], by simp [intersectOuter], by simp, by simp⟩
  | cons r todo ih =>
    intro i app hsub
    obtain ⟨new, h1, h2, h3, _⟩ :=
      intersectInner_trace r orig ((orig ++ app).drop (i + 1)) app
    obtain ⟨more, k1, k2, k3⟩ := ih (i + 1) (app ++ new)
      (fun x hx => hsub x (List.mem_cons_of_mem _ hx))
    refine ⟨new ++ more, ?_, ?_, ?_⟩
    · rw [intersectOuter, h1, k1]
      simp
    · intro hnd
      have := k2 (h2 hnd)
      simpa using this
    · intro hQ
      have hQ2 := appendedFrom_append orig app new r ((orig ++ app).drop (i + 1))
        (hsub r (List.mem_cons_self _ _)) (fun s hs => List.mem_of_mem_drop hs) hQ h3
      have := k3 hQ2
      simpa using this

theorem intersectInner_length (r : Rectangle) :
    ∀ (l rs seen : List Rectangle),
      (intersectInner r l (rs, seen)).1.length ≤ rs.length + l.length := by
  intro l
  induction l with
  | nil => intro rs seen; simp [intersectInner]
  | cons s rest ih =>
    intro rs seen
    by_cases hadd : (r.Intersect s).Empty = false ∧ r.Intersect s ∉ seen
    · rw [intersectInner_cons_append r s rest rs seen hadd.1 hadd.2]
      have := ih (rs ++ [r.Intersect s]) (r.Intersect s :: seen)
      simp only [List.length_append, List.length_singleton, List.length_cons,
        List.length_nil] at this ⊢
      omega
    · have hskip : (r.Intersect s).Empty = true ∨ r.Intersect s ∈ seen := by
        by_cases he : (r.Intersect s).Empty = true
        · exact Or.inl he
        · right
          by_contra c
          exact hadd ⟨by simpa using he, c⟩
      rw [intersectInner_cons_skip r s rest rs seen hskip]
      have := ih rs seen
      simp only [List.length_cons]
      omega

theorem intersectOuter_length :
    ∀ (todo : List Rectangle) (i : Nat) (rs seen : List Rectangle),
      (intersectOuter todo i (rs, seen)).1.length ≤ 2 ^ todo.length * rs.length := by
  intro todo
  induction todo with
  | nil => intro i rs seen; simp [intersectOuter]
  | cons r todo ih =>
    intro i rs seen
    rw [intersectOuter]
    have h1 := intersectInner_length r (rs.drop (i + 1)) rs seen
    have h2 := ih (i + 1) (intersectInner r (rs.drop (i + 1)) (rs, seen)).1
      (intersectInner r (rs.drop (i + 1)) (rs, seen)).2
    have h3 : (rs.drop (i + 1)).length ≤ rs.length := by
      rw [List.length_drop]
      omega
    have h4 : (intersectInner r (rs.drop (i + 1)) (rs, seen)).1.length ≤ 2 * rs.length := by
      omega
    calc (intersectOuter todo (i + 1) (intersectInner r (rs.drop (i + 1)) (rs, seen))).1.length
        ≤ 2 ^ todo.length * (intersectInner r (rs.drop (i + 1)) (rs, seen)).1.length := h2
      _ ≤ 2 ^ todo.length * (2 * rs.length) := Nat.mul_le_mul_left _ h4
      _ = 2 ^ (r :: todo).length * rs.length := by
        rw [List.length_cons, pow_succ]
        ring

theorem intersectOuterIters_spec :
    ∀ (todo : List Rectangle) (i : Nat) (rs seen : List Rectangle),
      (intersectOuterIters todo i (rs, seen)).length = todo.length ∧
        ∀ c ∈ intersectOuterIters todo i (rs, seen), c.2 ≤ c.1 := by
  intro todo
  induction todo with
  | nil => intro i rs seen; simp [intersectOuterIters]
  | cons r todo ih =>
    intro i rs seen
    rw [intersectOuterIters]
    have h := ih (i + 1) (intersectInner r (rs.drop (i + 1)) (rs, seen)).1
      (intersectInner r (rs.drop (i + 1)) (rs, seen)).2
    refine ⟨by simp [h.1], ?_⟩
    intro c hc
    rcases List.mem_cons.1 hc with hc | hc
    · rw [hc]
      simp only [List.length_drop]
      omega
    · exact h.2 c hc

/-- The enlarged list is the input followed by distinct, non-empty rectangles,
each the intersection of an input rectangle with an element before it. -/
theorem enlarged_trace (rs : List Rectangle) :
    ∃ app : List Rectangle, enlarged rs = rs ++ app ∧ app.Nodup ∧ AppendedFrom rs app := by
  obtain ⟨more, h1, h2, h3⟩ := intersectOuter_trace rs rs 0 [] (fun _ h => h)
  refine ⟨more, ?_, ?_, ?_⟩
  · unfold enlarged
    simpa using h1
  · simpa using h2 List.nodup_nil
  · have : AppendedFrom rs [] := by
      intro k a hk
      simp at hk
    simpa using h3 this

/-- C14: the first phase of `findIntersections` makes one outer iteration for
each of the `n` input rectangles, each inner loop ranges over at most as many
elements as the list has when it starts, and what is appended are non-empty
rectangles without repetition; so the enlarged list has at most `2^n * n`
elements and the output, a sublist of it, no more. -/
theorem enlarged_bounded (rs : List Rectangle) :
    (intersectOuterIters rs 0 (rs, [])).length = rs.length ∧
      (∀ c ∈ intersectOuterIters rs 0 (rs, []), c.2 ≤ c.1) ∧
      (∃ app : List Rectangle, enlarged rs = rs ++ app ∧ app.Nodup ∧
        ∀ a ∈ app, a.Empty = false) ∧
      (enlarged rs).length ≤ 2 ^ rs.length * rs.length ∧
      (findIntersections rs).length ≤ (enlarged rs).length := by
  obtain ⟨app, h1, h2, h3⟩ := enlarged_trace rs
  refine ⟨(intersectOuterIters_spec rs 0 rs []).1, (intersectOuterIters_spec rs 0 rs []).2,
    ⟨app, h1, h2, ?_⟩, intersectOuter_length rs 0 rs [], ?_⟩
  · intro a ha
    obtain ⟨k, hk⟩ := List.getElem?_of_mem ha
    exact (h3 k a hk).1
  · unfold findIntersections noOverlap
    exact List.length_filter_le _ _

/-- C15 fails as stated: on [(0,0)-(10,10), (5,5)-(15,15), (8,0)-(12,12)] the
code appends (8,5)-(10,10), the intersection of the second input with the
appended (8,0)-(10,10), which a pass over the original pairs alone does not. -/
theorem enlarged_ne_specEnlarged :
    enlarged [⟨⟨0, 0⟩, ⟨10, 10⟩⟩, ⟨⟨5, 5⟩, ⟨15, 15⟩⟩, ⟨⟨8, 0⟩, ⟨12, 12⟩⟩]
        = [⟨⟨0, 0⟩, ⟨10, 10⟩⟩, ⟨⟨5, 5⟩, ⟨15, 15⟩⟩, ⟨⟨8, 0⟩, ⟨12, 12⟩⟩,
            ⟨⟨5, 5⟩, ⟨10, 10⟩⟩, ⟨⟨8, 0⟩, ⟨10, 10⟩⟩, ⟨⟨8, 5⟩, ⟨12, 12⟩⟩, ⟨⟨8, 5⟩, ⟨10, 10⟩⟩] ∧
      specEnlarged [⟨⟨0, 0⟩, ⟨10, 10⟩⟩, ⟨⟨5, 5⟩, ⟨15, 15⟩⟩, ⟨⟨8, 0⟩, ⟨12, 12⟩⟩]
        = [⟨⟨0, 0⟩, ⟨10, 10⟩⟩, ⟨⟨5, 5⟩, ⟨15, 15⟩⟩, ⟨⟨8, 0⟩, ⟨12, 12⟩⟩,
            ⟨⟨5, 5⟩, ⟨10, 10⟩⟩, ⟨⟨8, 0⟩, ⟨10, 10⟩⟩, ⟨⟨8, 5⟩, ⟨12, 12⟩⟩] ∧
      Rectangle.Intersect ⟨⟨5, 5⟩, ⟨15, 15⟩⟩ ⟨⟨8, 0⟩, ⟨10, 10⟩⟩ = ⟨⟨8, 5⟩, ⟨10, 10⟩⟩ :=
  ⟨by decide, by decide, by decide⟩

/-- The enlarged list holds exactly the rectangles generated from the input. -/
theorem mem_enlarged_iff_generated (rs : List Rectangle) (a : Rectangle) :
    a ∈ enlarged rs ↔ Generated rs a := by
  obtain ⟨app, he, hgen, hJ⟩ := enlarged_spec rs
  constructor
  · exact hgen a
  · intro h
    induction h with
    | base a ha =>
      rw [he]
      exact List.mem_append_left _ ha
    | step r t hr _ hov ih => exact hJ r hr t ih hov

/-- C15, amended: the enlarged list is the input followed by pairwise distinct
non-empty rectangles, each the intersection of an input rectangle with an
element standing before it in the list (an input rectangle or an intersection
appended earlier); and the input rectangles are paired with every element of
the list, the appended intersections included: for an input rectangle `r` and
an element `t` of the enlarged list, input or appended, a non-empty
`r.Intersect t` is in the list. In particular it contains every non-empty
intersection of two input rectangles, and its elements are exactly the
rectangles generated from the input by such intersections. -/
theorem enlarged_structure (rs : List Rectangle) :
    ∃ app : List Rectangle, enlarged rs = rs ++ app ∧ app.Nodup ∧
      (∀ (k : Nat) (a : Rectangle), app[k]? = some a →
        a.Empty = false ∧
          ∃ r ∈ rs, ∃ t ∈ rs ++ app.take k, r.Overlaps t = true ∧ a = r.Intersect t) ∧
      (∀ r ∈ rs, ∀ t ∈ rs ++ app, (r.Intersect t).Empty = false →
        r.Intersect t ∈ rs ++ app) ∧
      (∀ (i j : Nat) (a b : Rectangle), i < j → rs[i]? = some a → rs[j]? = some b →
        (a.Intersect b).Empty = false → a.Intersect b ∈ rs ++ app) ∧
      (∀ a : Rectangle, a ∈ rs ++ app ↔ Generated rs a) := by
  obtain ⟨app, h1, h2, h3⟩ := enlarged_trace rs
  obtain ⟨_, _, _, hJ⟩ := enlarged_spec rs
  rw [h1] at hJ
  refine ⟨app, h1, h2, h3, ?_, ?_, ?_⟩
  · intro r hr t ht hne
    exact hJ r hr t ht ((Rectangle.Intersect_Empty_iff r t).1 hne)
  · intro i j a b _ hi hj hne
    exact hJ a (List.getElem?_mem hi) b (List.mem_append_left _ (List.getElem?_mem hj))
      ((Rectangle.Intersect_Empty_iff a b).1 hne)
  · intro a
    rw [← h1]
    exact mem_enlarged_iff_generated rs a

/-- C15 amended, on [(0,0)-(10,10), (5,5)-(15,15), (8,0)-(12,12)]: the input
(5,5)-(15,15) is paired with the appended (8,0)-(10,10), and their intersection
(8,5)-(10,10) is in the enlarged list; the pass over the original pairs alone
does not have it. -/
theorem enlarged_structure_witness :
    (⟨⟨8, 0⟩, ⟨10, 10⟩⟩ : Rectangle)
        ∉ [(⟨⟨0, 0⟩, ⟨10, 10⟩⟩ : Rectangle), ⟨⟨5, 5⟩, ⟨15, 15⟩⟩, ⟨⟨8, 0⟩, ⟨12, 12⟩⟩] ∧
      (⟨⟨8, 0⟩, ⟨10, 10⟩⟩ : Rectangle)
        ∈ enlarged [⟨⟨0, 0⟩, ⟨10, 10⟩⟩, ⟨⟨5, 5⟩, ⟨15, 15⟩⟩, ⟨⟨8, 0⟩, ⟨12, 12⟩⟩] ∧
      Rectangle.Intersect ⟨⟨5, 5⟩, ⟨15, 15⟩⟩ ⟨⟨8, 0⟩, ⟨10, 10⟩⟩
        ∈ enlarged [⟨⟨0, 0⟩, ⟨10, 10⟩⟩, ⟨⟨5, 5⟩, ⟨15, 15⟩⟩, ⟨⟨8, 0⟩, ⟨12, 12⟩⟩] ∧
      Rectangle.Intersect ⟨⟨5, 5⟩, ⟨15, 15⟩⟩ ⟨⟨8, 0⟩, ⟨10, 10⟩⟩
        ∉ specEnlarged [⟨⟨0, 0⟩, ⟨10, 10⟩⟩, ⟨⟨5, 5⟩, ⟨15, 15⟩⟩, ⟨⟨8, 0⟩, ⟨12, 12⟩⟩] := by
  obtain ⟨app, h1, _, _, h4, _⟩ :=
    enlarged_structure [⟨⟨0, 0⟩, ⟨10, 10⟩⟩, ⟨⟨5, 5⟩, ⟨15, 15⟩⟩, ⟨⟨8, 0⟩, ⟨12, 12⟩⟩]
  refine ⟨by decide, by decide, ?_, by decide⟩
  rw [h1]
  refine h4 ⟨⟨5, 5⟩, ⟨15, 15⟩⟩ (by decide) ⟨⟨8, 0⟩, ⟨10, 10⟩⟩ ?_ (by decide)
  rw [← h1]
  decide

/-! ## `getRectangles` is total -/

/-- The splitting loop and its counter: the loop never panics, the counter is
at most the number of iterations, and the list grows by two for each counted
split. -/
theorem splitLoop_count (padding : Int) :
    ∀ (n : Nat) (rects : List Rectangle) (g : Rand), rects ≠ [] →
      ∃ rects2 g2 k, splitLoop padding n rects g = some (rects2, g2) ∧
        splitCount padding n rects g = some k ∧ k ≤ n ∧
        rects2.length = rects.length + 2 * k := by
  intro n
  induction n with
  | zero =>
    intro rects g _
    exact ⟨rects, g, 0, rfl, rfl, Nat.le_refl _, rfl⟩
  | succ n ih =>
    intro rects g hne
    have hlen : 0 < (rects.length : Int) := by
      have := List.length_pos.2 hne
      omega
    have hk1 : 0 ≤ (g.draws g.pos : Int) % (rects.length : Int) :=
      Int.emod_nonneg _ (by omega)
    have hk2 : (g.draws g.pos : Int) % (rects.length : Int) < (rects.length : Int) :=
      Int.emod_lt_of_pos _ hlen
    have hidx : ((g.draws g.pos : Int) % (rects.length : Int)).toNat < rects.length := by
      omega
    obtain ⟨res, g2, hsplit⟩ := splitRectangle_total
      (rects[((g.draws g.pos : Int) % (rects.length : Int)).toNat]) padding g.next
    rw [splitLoop, splitCount, Intn_of_pos _ g hlen]
    simp only [List.getElem?_eq_getElem hidx, hsplit]
    cases herr : res.err with
    | some e =>
      obtain ⟨rects2, g3, k, h1, h2, h3, h4⟩ := ih rects g2 hne
      exact ⟨rects2, g3, k, h1, h2, Nat.le_succ_of_le h3, h4⟩
    | none =>
      obtain ⟨rects2, g3, k, h1, h2, h3, h4⟩ :=
        ih (rects ++ [res.s1, res.s2]) g2 (by simp)
      refine ⟨rects2, g3, k + 1, h1, ?_, Nat.succ_le_succ h3, ?_⟩
      · simp only [h2]
      · rw [h4]
        simp only [List.length_append, List.length_cons, List.length_nil]
        omega

/-- One iteration of the splitting loop: the index drawn is in range, the split
returns, and the loop goes on with the list unchanged after a failed split and
with the two children appended after a successful one. -/
theorem splitLoop_step (padding : Int) (n : Nat) (rects : List Rectangle) (g : Rand)
    (hne : rects ≠ []) :
    ∃ (idx : Int) (r : Rectangle) (res : SplitResult) (g2 : Rand),
      Intn (rects.length : Int) g = some (idx, g.next) ∧ 0 ≤ idx ∧
      idx < (rects.length : Int) ∧ rects[idx.toNat]? = some r ∧
      splitRectangle r padding g.next = some (res, g2) ∧
      (res.err ≠ none → splitLoop padding (n + 1) rects g = splitLoop padding n rects g2) ∧
      (res.err = none →
        splitLoop padding (n + 1) rects g
          = splitLoop padding n (rects ++ [res.s1, res.s2]) g2) := by
  have hlen : 0 < (rects.length : Int) := by
    have := List.length_pos.2 hne
    omega
  have hk1 : 0 ≤ (g.draws g.pos : Int) % (rects.length : Int) :=
    Int.emod_nonneg _ (by omega)
  have hk2 : (g.draws g.pos : Int) % (rects.length : Int) < (rects.length : Int) :=
    Int.emod_lt_of_pos _ hlen
  have hidx : ((g.draws g.pos : Int) % (rects.length : Int)).toNat < rects.length := by
    omega
  obtain ⟨res, g2, hsplit⟩ := splitRectangle_total
    (rects[((g.draws g.pos : Int) % (rects.length : Int)).toNat]) padding g.next
  refine ⟨_, _, res, g2, Intn_of_pos _ g hlen, hk1, hk2, List.getElem?_eq_getElem hidx,
    hsplit, ?_, ?_⟩
  · intro herr
    rw [splitLoop, Intn_of_pos _ g hlen]
    simp only [List.getElem?_eq_getElem hidx, hsplit]
    cases h : res.err with
    | some e => rfl
    | none => exact absurd h herr
  · intro herr
    rw [splitLoop, Intn_of_pos _ g hlen]
    simp only [List.getElem?_eq_getElem hidx, hsplit, herr]

/-- C18: `getRectangles` is total: for every seed and every stream of draws it
returns (no `rand.Intn` with a non-positive bound, no index out of range, no
error escaping); the candidate list before deduplication has `3 + 2k` entries,
with `k ≤ numSplits` the number of successful splits and `15 ≤ numSplits ≤ 44`;
and in each iteration a failed split leaves the list unchanged and the loop
goes on. -/
theorem getRectangles_total (seed : Rectangle) (g : Rand) :
    (∃ out g', getRectangles seed g = some (out, g')) ∧
      (∃ rectangles numSplits g' k,
        candidates seed g = some (rectangles, numSplits, g') ∧
        splitCount 100 numSplits [seed] g.next = some k ∧
        k ≤ numSplits ∧ 15 ≤ numSplits ∧ numSplits ≤ 44 ∧ rectangles.length = 3 + 2 * k) ∧
      (∀ (n : Nat) (rects : List Rectangle) (g1 : Rand), rects ≠ [] →
        ∃ (idx : Int) (r : Rectangle) (res : SplitResult) (g2 : Rand),
          Intn (rects.length : Int) g1 = some (idx, g1.next) ∧ 0 ≤ idx ∧
          idx < (rects.length : Int) ∧ rects[idx.toNat]? = some r ∧
          splitRectangle r 100 g1.next = some (res, g2) ∧
          (res.err ≠ none → splitLoop 100 (n + 1) rects g1 = splitLoop 100 n rects g2) ∧
          (res.err = none →
            splitLoop 100 (n + 1) rects g1
              = splitLoop 100 n (rects ++ [res.s1, res.s2]) g2)) := by
  obtain ⟨rects2, g2, k, h1, h2, h3, h4⟩ :=
    splitLoop_count 100 (15 + (g.draws g.pos : Int) % 30).toNat [seed] g.next (by simp)
  have hc : candidates seed g = some
      (rects2 ++ [Rect seed.Min.X seed.Min.Y (Int.tdiv seed.Max.X 2) seed.Max.Y,
          Rect (Int.tdiv seed.Max.X 2) seed.Min.Y seed.Max.X seed.Max.Y],
        (15 + (g.draws g.pos : Int) % 30).toNat, g2) := by
    unfold candidates
    rw [Intn_of_pos 30 g (by decide)]
    simp only [h1]
  refine ⟨?_, ⟨_, _, g2, k, hc, h2, h3, by omega, by omega, ?_⟩,
    fun n rects g1 hne => splitLoop_step 100 n rects g1 hne⟩
  · unfold getRectangles
    rw [hc]
    exact ⟨_, _, rfl⟩
  · simp only [List.length_append, List.length_cons, List.length_nil, h4]
    omega

/-! ## Painting: the border colour stays in the frame of every tile -/

theorem Point.In_Inset (p : Point) (r : Rectangle) (h : p.In (r.Inset 2) = true) :
    r.Min.X + 2 ≤ p.X ∧ p.X < r.Max.X - 2 ∧ r.Min.Y + 2 ≤ p.Y ∧ p.Y < r.Max.Y - 2 := by
  rw [Point.In_bounds_iff] at h
  unfold Rectangle.Inset Rectangle.Dx Rectangle.Dy at h
  by_cases hx : r.Max.X - r.Min.X < 2 * 2
  · rw [if_pos hx] at h
    simp only at h
    omega
  · rw [if_neg hx] at h
    by_cases hy : r.Max.Y - r.Min.Y < 2 * 2
    · rw [if_pos hy] at h
      simp only at h
      omega
    · rw [if_neg hy] at h
      simp only at h
      omega

theorem Point.In_Intersect_left (p : Point) (r s : Rectangle)
    (h : p.In (r.Intersect s) = true) : p.In r = true := by
  rw [Rectangle.Intersect_eq] at h
  by_cases he : (r.meet s).Empty = true
  · rw [if_pos he, Point.In_bounds_iff] at h
    simp only [ZR] at h
    omega
  · rw [if_neg he] at h
    exact ((Point.In_meet p r s).1 h).1

/-- Drawing keeps the bounds of the canvas. -/
theorem Draw_Bounds (dst : Canvas) (r : Rectangle) (src : Image) (sp : Point) :
    (Draw dst r src sp).Bounds = dst.Bounds := by
  unfold Draw
  dsimp only
  split_ifs <;> rfl

/-- Drawing into `r` keeps every pixel outside `r`. -/
theorem Draw_outside (dst : Canvas) (r : Rectangle) (src : Image) (sp p : Point)
    (h : p.In r = false) : (Draw dst r src sp).At p = dst.At p := by
  have hnot : ¬ p.In ((r.Intersect dst.Bounds).Intersect
      (src.Bounds.Add (r.Min.Sub sp))) = true := by
    intro c
    have c3 := Point.In_Intersect_left p _ _ (Point.In_Intersect_left p _ _ c)
    rw [h] at c3
    exact absurd c3 (by decide)
  have hpix : (Draw dst r src sp).Pix p = dst.Pix p := by
    unfold Draw
    dsimp only
    split_ifs with he
    · rfl
    · exact if_neg hnot
  unfold Canvas.At
  rw [Draw_Bounds, hpix]

/-- The fill decision never panics and its key has an entry in `imageMap`. -/
theorem fillKey_imageMap (img : Image) (g : Rand) :
    ∃ key g' im, fillKey g = some (key, g') ∧ imageMap img key = some im := by
  rw [fillKey_eq]
  by_cases ha : (g.draws g.pos : Int) % 4 = 0
  · rw [if_pos ha]
    have h1 : 0 ≤ (g.draws (g.pos + 1) : Int) % 5 := Int.emod_nonneg _ (by decide)
    have h2 : (g.draws (g.pos + 1) : Int) % 5 < 5 := Int.emod_lt_of_pos _ (by decide)
    refine ⟨_, _, (imageMap img ((g.draws (g.pos + 1) : Int) % 5)).getD img, rfl, ?_⟩
    unfold imageMap
    simp only [RED, BLUE, YELLOW, COPY, WHITE]
    split_ifs <;> first | rfl | omega
  · rw [if_neg ha]
    by_cases hb : (g.draws (g.pos + 1) : Int) % 4 = 0
    · rw [if_pos hb]
      exact ⟨_, _, img, rfl, rfl⟩
    · rw [if_neg hb]
      exact ⟨_, _, _, rfl, rfl⟩

/-- The painting loop never panics, keeps the bounds of the canvas, and leaves
every pixel that is in the inset of no rectangle of the list as it was. -/
theorem paintLoop_outside (img : Image) :
    ∀ (tiles : List Rectangle) (dst : Canvas) (g : Rand),
      ∃ dst2 g2, paintLoop img tiles dst g = some (dst2, g2) ∧
        dst2.Bounds = dst.Bounds ∧
        ∀ p : Point, (∀ t ∈ tiles, p.In (t.Inset 2) = false) → dst2.At p = dst.At p := by
  intro tiles
  induction tiles with
  | nil =>
    intro dst g
    exact ⟨dst, g, rfl, rfl, fun _ _ => rfl⟩
  | cons r rest ih =>
    intro dst g
    obtain ⟨key, g1, im, hk, him⟩ := fillKey_imageMap img g
    obtain ⟨dst2, g2, h1, h2, h3⟩ := ih (Draw dst (r.Inset 2) im (r.Inset 2).Min) g1
    refine ⟨dst2, g2, ?_, ?_, ?_⟩
    · rw [paintLoop]
      simp only [hk, him]
      exact h1
    · rw [h2, Draw_Bounds]
    · intro p hp
      rw [h3 p (fun t ht => hp t (List.mem_cons_of_mem _ ht))]
      exact Draw_outside dst (r.Inset 2) im (r.Inset 2).Min p
        (hp r (List.mem_cons_self _ _))

/-- C13: the loop of `mondrian` paints a tiling (rectangles with different
bounds do not overlap) onto a canvas whose pixels all have the border colour:
it returns, and every pixel of the canvas that lies inside a tile and less than
2 units from one of the edges of that tile still has the border colour,
whatever fills were drawn. -/
theorem paintLoop_keeps_border (img : Image) (tiles : List Rectangle) (dst0 : Canvas)
    (g : Rand)
    (hinit : ∀ p : Point, p.In dst0.Bounds = true → dst0.At p = borderColor)
    (htiling : ∀ a ∈ tiles, ∀ b ∈ tiles, a ≠ b → a.Overlaps b = false) :
    ∃ dst g', paintLoop img tiles dst0 g = some (dst, g') ∧ dst.Bounds = dst0.Bounds ∧
      ∀ t ∈ tiles, ∀ p : Point, p.In dst.Bounds = true → p.In t = true →
        (p.X < t.Min.X + 2 ∨ t.Max.X - 2 ≤ p.X ∨ p.Y < t.Min.Y + 2 ∨ t.Max.Y - 2 ≤ p.Y) →
        dst.At p = borderColor := by
  obtain ⟨dst, g2, h1, h2, h3⟩ := paintLoop_outside img tiles dst0 g
  refine ⟨dst, g2, h1, h2, ?_⟩
  intro t ht p hpb hpt hframe
  rw [h2] at hpb
  rw [h3 p ?_]
  · exact hinit p hpb
  · intro u hu
    by_contra c
    have hin := Point.In_Inset p u (by simpa using c)
    have hpu : p.In u = true := by
      rw [Point.In_bounds_iff]
      omega
    have hov : u.Overlaps t = true := Rectangle.Overlaps_of_common_point p u t hpu hpt
    have hut : u = t := by
      by_contra hne
      have := htiling u hu t ht hne
      rw [hov] at this
      exact absurd this (by decide)
    rw [hut] at hin
    omega

/-- C13, at the single tile (0,0)-(10,10) on a black canvas of the same bounds,
with the source image white and all raw draws 0: the pixel (1,5), one unit from
the left edge of the tile, is black after painting. -/
theorem paintLoop_keeps_border_witness :
    ∃ dst g', paintLoop (Uniform ⟨255, 255, 255, 255⟩) [⟨⟨0, 0⟩, ⟨10, 10⟩⟩]
        ⟨⟨⟨0, 0⟩, ⟨10, 10⟩⟩, fun _ => borderColor⟩ ⟨fun _ => 0, 0⟩ = some (dst, g') ∧
      dst.At ⟨1, 5⟩ = borderColor := by
  obtain ⟨dst, g', h1, h2, h3⟩ := paintLoop_keeps_border (Uniform ⟨255, 255, 255, 255⟩)
    [⟨⟨0, 0⟩, ⟨10, 10⟩⟩] ⟨⟨⟨0, 0⟩, ⟨10, 10⟩⟩, fun _ => borderColor⟩ ⟨fun _ => 0, 0⟩
    (by
      intro p hp
      unfold Canvas.At
      rw [if_pos hp])
    (by
      intro a ha b hb hne
      rw [List.mem_singleton.1 ha, List.mem_singleton.1 hb] at hne
      exact absurd rfl hne)
  refine ⟨dst, g', h1, h3 ⟨⟨0, 0⟩, ⟨10, 10⟩⟩ (by simp) ⟨1, 5⟩ ?_ (by decide)
    (Or.inl (by decide))⟩
  rw [h2]
  decide

end Mondrian
